import Mathlib

/-!
Verification development for the pianobarfly recorder/tagger.

The definitions below are a shallow embedding of the C sources:
  * `src/fly_mp4.c`  — the MP4 atom-tree editor (`_BarFlyMp4Atom…`,
    `_BarFlyMp4Tag…` functions),
  * `src/fly.c`      — the recorder (`BarFly…` functions, path building,
    name sanitisation),
  * `src/fly.h`      — the `BarFly_t` structure and `BarFlyStatus_t` enum.

Machine integers are modelled as `Nat` with explicit `% 2^w` where the C
code truncates; bytes read from files are `Nat` values, well-formedness
hypotheses state they are `< 256` where a proof needs it.  Fallible C
functions (returning `-1` / `NULL`) are modelled with `Option` or an
explicit `Int` status, mirroring the C control flow.
-/

namespace Pianobarfly

/-! ## Byte-level primitives of fly_mp4.c -/

/-- Big-endian 32-bit value of the first four bytes of a buffer (reading a
missing byte as 0; the C code always has four bytes in range). -/
def readU32 (b : List Nat) : Nat :=
  2 ^ 24 * b.getD 0 0 + 2 ^ 16 * b.getD 1 0 + 2 ^ 8 * b.getD 2 0 + b.getD 3 0

/-- `_BarFlyMp4BufToLong`: converts the first 4 bytes of the buffer to a C
`long`.  The C code ORs `buffer[index] << 8*(3-index)` into a 64-bit `long`;
for `buffer[0] >= 128` the int-promoted shift is sign-extended, so the
resulting `long`, reinterpreted as a 64-bit unsigned value, has bits 32..63
set.  The result is that unsigned reinterpretation. -/
def barFlyMp4BufToLong (b : List Nat) : Nat :=
  let v := readU32 b
  if v < 2 ^ 31 then v else v + (2 ^ 64 - 2 ^ 32)

/-- `_BarFlyMp4LongRender`: writes the low 32 bits of `lsize` to a 4-byte
big-endian buffer (each `uint8_t` assignment truncates mod 256). -/
def barFlyMp4LongRender (lsize : Nat) : List Nat :=
  [lsize / 2 ^ 24 % 256, lsize / 2 ^ 16 % 256, lsize / 2 ^ 8 % 256, lsize % 256]

/-- `_BarFlyMp4ShortRender`: writes the low 16 bits of `value` to a 2-byte
big-endian buffer. -/
def barFlyMp4ShortRender (value : Nat) : List Nat :=
  [value / 2 ^ 8 % 256, value % 256]

/-! ## The MP4 atom tree (`BarFlyMp4Atom_t`)

A C atom holds `name`, `size`, a data buffer `data` with its byte count
`data_size` (a `NULL` buffer with `data_size > 0` means the payload has not
been read from the file yet), the `offset` of the atom in the original file
(`-1` for freshly created atoms), and an array of children.  The C parent
back-pointer is not stored; operations that in C propagate a size delta up
the parent chain are modelled as path-indexed updates that bump every node
along the path, which is the same mutation expressed top-down. -/

inductive Mp4Atom : Type where
  | node (name : String) (size : Nat) (dataSize : Nat) (data : Option (List Nat))
      (offset : Int) (children : List Mp4Atom)
deriving Repr

namespace Mp4Atom

def name : Mp4Atom → String
  | .node n _ _ _ _ _ => n

def size : Mp4Atom → Nat
  | .node _ s _ _ _ _ => s

def dataSize : Mp4Atom → Nat
  | .node _ _ ds _ _ _ => ds

def data : Mp4Atom → Option (List Nat)
  | .node _ _ _ d _ _ => d

def offset : Mp4Atom → Int
  | .node _ _ _ _ off _ => off

def children : Mp4Atom → List Mp4Atom
  | .node _ _ _ _ _ cs => cs

end Mp4Atom

/-- Sum of the recorded sizes of a list of atoms. -/
def sumSizes : List Mp4Atom → Nat
  | [] => 0
  | a :: rest => a.size + sumSizes rest

/-- `_BarFlyMp4AtomOpen`: a fresh atom has the given name, size 8
(`BAR_FLY_MP4_ATOM_MIN_LENGTH`), no data and no children. -/
def barFlyMp4AtomOpen (nm : String) (off : Int) : Mp4Atom :=
  .node nm 8 0 none off []

/-- The names for which `_BarFlyMp4FileParseAtomData` actually reads the
payload from the file (data-only atoms, plus `ftyp`). -/
def parseAtomDataNames : List String :=
  ["dref", "esds", "ftyp", "hdlr", "iods", "mdhd", "mvhd", "smhd",
   "stco", "stsc", "stsz", "stts", "tkhd"]

/-- Bytes `pos .. pos+len` of the original MP4 file. -/
def fileSlice (file : List Nat) (pos len : Nat) : List Nat :=
  (file.drop pos).take len

/-- `_BarFlyMp4FileParseAtomData`: if the atom's payload has not been read
yet (`data = NULL` and `data_size > 0`) and the atom's name is one of the
data-only names, read `data_size` bytes from the file at `offset + 8`.
Otherwise nothing happens. -/
def materializeAtomData (file : List Nat) (a : Mp4Atom) : Mp4Atom :=
  match a with
  | .node n s ds d off cs =>
    if d = none ∧ 0 < ds ∧ n ∈ parseAtomDataNames then
      .node n s ds (some (fileSlice file (off.toNat + 8) ds)) off cs
    else a

/-- The payload an atom denotes: its buffer when materialised, otherwise the
bytes still sitting in the original file at its offset. -/
def effData (file : List Nat) (a : Mp4Atom) : List Nat :=
  match a.data with
  | some d => d
  | none => fileSlice file (a.offset.toNat + 8) a.dataSize

/-- `_BarFlyMp4AtomAppendData` on the atom itself (no parent):  when the
buffer is non-empty the payload is materialised, the bytes are appended,
and both `data_size` and `size` grow by the byte count.  (If a
never-materialised non-empty payload were appended to, the C buffer would
hold `data_size` uninitialised bytes before the new data; zero bytes stand
in for them here — the program only ever appends to freshly created atoms,
whose payload is empty.) -/
def atomAppendData (file : List Nat) (bytes : List Nat) (a : Mp4Atom) : Mp4Atom :=
  if bytes.isEmpty then a
  else
    match materializeAtomData file a with
    | .node n s ds d off cs =>
      .node n (s + bytes.length) (ds + bytes.length)
        (some (d.getD (List.replicate ds 0) ++ bytes)) off cs

mutual

/-- `_BarFlyMp4AtomAppendData` reached through a (name-)path from `a`:
the data is appended at the atom the path leads to, and — as the C
`_BarFlyMp4AtomBumpSize` does through the parent chain — every atom along
the path has its size bumped by the appended byte count.  `none` when the
path does not resolve. -/
def appendDataAt (file : List Nat) (bytes : List Nat) :
    Mp4Atom → List String → Option Mp4Atom
  | a, [] => some (atomAppendData file bytes a)
  | .node n s ds d off cs, nm :: rest =>
    match appendDataIn file bytes cs nm rest with
    | some cs' => some (.node n (s + bytes.length) ds d off cs')
    | none => none

/-- Helper: append inside the first child named `nm` (the C `FindAtom`
loop commits to the first name match and never backtracks). -/
def appendDataIn (file : List Nat) (bytes : List Nat) :
    List Mp4Atom → String → List String → Option (List Mp4Atom)
  | [], _, _ => none
  | a :: as, nm, rest =>
    if a.name == nm then (appendDataAt file bytes a rest).map (· :: as)
    else (appendDataIn file bytes as nm rest).map (a :: ·)

end

mutual

/-- `_BarFlyMp4AtomAddChild` reached through a (name-)path: the child is
appended to the children array of the atom the path leads to, and every
atom along the path (the C parent chain) has its size bumped by
`child.size`.  `none` when the path does not resolve. -/
def addChildAt (child : Mp4Atom) : Mp4Atom → List String → Option Mp4Atom
  | .node n s ds d off cs, [] => some (.node n (s + child.size) ds d off (cs ++ [child]))
  | .node n s ds d off cs, nm :: rest =>
    match addChildIn child cs nm rest with
    | some cs' => some (.node n (s + child.size) ds d off cs')
    | none => none

def addChildIn (child : Mp4Atom) : List Mp4Atom → String → List String → Option (List Mp4Atom)
  | [], _, _ => none
  | a :: as, nm, rest =>
    if a.name == nm then (addChildAt child a rest).map (· :: as)
    else (addChildIn child as nm rest).map (a :: ·)

end

mutual

/-- `_BarFlyMp4TagFindAtom`, below the top level: follow the path, at each
level committing to the first child with the matching name. -/
def findIn : Mp4Atom → List String → Option Mp4Atom
  | a, [] => some a
  | .node _ _ _ _ _ cs, nm :: rest => findInList cs nm rest

def findInList : List Mp4Atom → String → List String → Option Mp4Atom
  | [], _, _ => none
  | a :: as, nm, rest =>
    if a.name == nm then findIn a rest else findInList as nm rest

end

mutual

/-- Apply `f` to the atom a path leads to, leaving everything else
unchanged (used for the in-place `stco` offset rewrite, which does not
change any size). -/
def mapAt (f : Mp4Atom → Mp4Atom) : Mp4Atom → List String → Option Mp4Atom
  | a, [] => some (f a)
  | .node n s ds d off cs, nm :: rest =>
    match mapAtList f cs nm rest with
    | some cs' => some (.node n s ds d off cs')
    | none => none

def mapAtList (f : Mp4Atom → Mp4Atom) : List Mp4Atom → String → List String → Option (List Mp4Atom)
  | [], _, _ => none
  | a :: as, nm, rest =>
    if a.name == nm then (mapAt f a rest).map (· :: as)
    else (mapAtList f as nm rest).map (a :: ·)

end

/-! ## The MP4 tag (`BarFlyMp4Tag_t`)

The tag's mutable state relevant here is its array of top-level atoms;
the associated read-only file is passed explicitly. -/

/-- `_BarFlyMp4TagFindAtom` from the top: the first segment selects the
first top-level atom with that name, the rest descends through children. -/
def tagFindAtom (atoms : List Mp4Atom) : List String → Option Mp4Atom
  | [] => none
  | nm :: rest => findInList atoms nm rest

/-- Apply `f` to the atom a top-level path leads to. -/
def tagMapAt (f : Mp4Atom → Mp4Atom) (atoms : List Mp4Atom) :
    List String → Option (List Mp4Atom)
  | [] => none
  | nm :: rest => mapAtList f atoms nm rest

/-- The dotted path `"moov.trak.mdia.minf.stbl.stco"` used by
`_BarFlyMp4TagUpdateOffsets`. -/
def stcoPath : List String := ["moov", "trak", "mdia", "minf", "stbl", "stco"]

/-- The entry-bumping loop of `_BarFlyMp4TagUpdateOffsets`: starting at
`pos = data + 8`, for `count` iterations read a 4-byte entry, add `delta`
(64-bit unsigned arithmetic), and write the low 32 bits back. -/
def bumpEntries (delta : Nat) : Nat → List Nat → List Nat
  | 0, bytes => bytes
  | count + 1, bytes =>
    barFlyMp4LongRender ((barFlyMp4BufToLong bytes + delta) % 2 ^ 64)
      ++ bumpEntries delta count (bytes.drop 4)

/-- The `stco` payload rewrite of `_BarFlyMp4TagUpdateOffsets`: the entry
count is read at byte 4, and that many 4-byte entries starting at byte 8
are each increased by `delta`. -/
def stcoDataUpdate (delta : Nat) (d : List Nat) : List Nat :=
  let count := barFlyMp4BufToLong (d.drop 4)
  d.take 8 ++ bumpEntries delta count (d.drop 8)

/-- The per-atom action of `_BarFlyMp4TagUpdateOffsets` on the found `stco`
atom: materialise its payload from the file, then rewrite the entries. -/
def stcoAtomUpdate (file : List Nat) (delta : Nat) (a : Mp4Atom) : Mp4Atom :=
  match materializeAtomData file a with
  | .node n s ds d off cs =>
    .node n s ds (some (stcoDataUpdate delta (d.getD []))) off cs

/-- `_BarFlyMp4TagUpdateOffsets`: if `moov.trak.mdia.minf.stbl.stco` is
found its entries are bumped by `delta`; if it is not found nothing happens
(and the C function still reports success). -/
def barFlyMp4TagUpdateOffsets (file : List Nat) (atoms : List Mp4Atom) (delta : Nat) :
    List Mp4Atom :=
  match tagMapAt (stcoAtomUpdate file delta) atoms stcoPath with
  | some atoms' => atoms'
  | none => atoms

/-- `_BarFlyMp4TagAddAtom`: an empty parent path appends the atom at top
level; otherwise the atom becomes the last child of the atom the parent
path leads to, bumping the sizes up the chain.  When `updateOffsets` is
true the `stco` entries are then increased by the added atom's size. -/
def barFlyMp4TagAddAtom (file : List Nat) (atoms : List Mp4Atom)
    (parentPath : List String) (a : Mp4Atom) (updateOffsets : Bool) :
    Option (List Mp4Atom) :=
  let attached : Option (List Mp4Atom) :=
    match parentPath with
    | [] => some (atoms ++ [a])
    | nm :: rest => addChildIn a atoms nm rest
  match attached with
  | none => none
  | some atoms' =>
    if updateOffsets then some (barFlyMp4TagUpdateOffsets file atoms' a.size)
    else some atoms'

/-! ## The parser (`_BarFlyMp4FileParseAtom`) -/

/-- `_BarFlyMp4FileParseData` / `fread`: `n` bytes at `pos`, failing (short
read) when the file ends first. -/
def readBytes (file : List Nat) (pos n : Nat) : Option (List Nat) :=
  if pos + n ≤ file.length then some (fileSlice file pos n) else none

/-- `_BarFlyMp4FileParseAtomSize`: read 4 bytes as a long and require at
least the minimum atom size 8 (`BAR_FLY_MP4_ATOM_MIN_LENGTH`).  The value
lands in a `size_t`; the unsigned reinterpretation from
`barFlyMp4BufToLong` is exactly the stored bit pattern. -/
def parseAtomSize (file : List Nat) (pos : Nat) : Option Nat :=
  match readBytes file pos 4 with
  | none => none
  | some b =>
    let sz := barFlyMp4BufToLong b
    if sz < 8 then none else some sz

/-- `_BarFlyMp4FileParseAtomName`: read 4 bytes as the atom name. -/
def parseAtomName (file : List Nat) (pos : Nat) : Option String :=
  match readBytes file pos 4 with
  | none => none
  | some b => some (String.mk (b.map Char.ofNat))

/-- The container-only atom names of `_BarFlyMp4FileParseAtom`. -/
def containerAtomNames : List String := ["dinf", "mdia", "minf", "moov", "stbl", "trak"]

/-- The data-only atom names of `_BarFlyMp4FileParseAtom`. -/
def dataAtomNames : List String :=
  ["dref", "esds", "hdlr", "iods", "mdhd", "mvhd", "smhd", "stco",
   "stsc", "stsz", "stts", "tkhd"]

/-- `size_t` subtraction: wraps modulo `2^64`. -/
def sizeTSub (a b : Nat) : Nat := (a + 2 ^ 64 - b % 2 ^ 64) % 2 ^ 64

mutual

/-- `_BarFlyMp4FileParseAtom` at position `pos` of the file: read size and
name, classify the atom by name (container-only / data-only / `stsd` /
`mp4a`, anything else is a fatal parse error), seek past the payload, then
parse children from the remaining `size_l - atom->size` bytes.  The payload
itself is not read (lazy, `data = none`).  Returns the atom and the
position after it.  `fuel` bounds the recursion depth; the C recursion is
bounded by the file itself. -/
def parseAtom (file : List Nat) : Nat → Nat → Option (Mp4Atom × Nat)
  | 0, _ => none
  | fuel + 1, pos =>
    match parseAtomSize file pos with
    | none => none
    | some sizeL =>
      match parseAtomName file (pos + 4) with
      | none => none
      | some nm =>
        let classified : Option (Nat × Nat) :=
          -- (data_size, atom->size) right after classification
          if nm ∈ containerAtomNames then some (0, 8)
          else if nm ∈ dataAtomNames then some (sizeL - 8, sizeL)
          else if nm = "stsd" then some (8, 16)
          else if nm = "mp4a" then some (28, 36)
          else none
        match classified with
        | none => none
        | some (ds, sz) =>
          let a : Mp4Atom := .node nm sz ds none (Int.ofNat pos) []
          parseChildren file fuel (pos + 8 + ds) (sizeTSub sizeL sz) a

/-- The child-parsing loop of `_BarFlyMp4FileParseAtom`: while bytes
remain, parse a child, reject it if it is larger than what remains, and
append it to the parent (bumping the parent's size, as
`_BarFlyMp4AtomAddChild` does). -/
def parseChildren (file : List Nat) : Nat → Nat → Nat → Mp4Atom → Option (Mp4Atom × Nat)
  | 0, _, _, _ => none
  | fuel + 1, pos, remaining, parent =>
    if remaining = 0 then some (parent, pos)
    else
      match parseAtom file fuel pos with
      | none => none
      | some (child, pos') =>
        if remaining < child.size then none
        else
          match parent with
          | .node n s ds d off cs =>
            parseChildren file fuel pos' (remaining - child.size)
              (.node n (s + child.size) ds d off (cs ++ [child]))

end

/-! ## The size invariant (C2) -/

mutual

/-- The MP4 size-accounting invariant: every atom's recorded size is
8 + its payload byte count + the sum of its children's recorded sizes. -/
def sizeOkB : Mp4Atom → Bool
  | .node _ s ds _ _ cs => (s == 8 + ds + sumSizes cs) && sizeOkList cs

def sizeOkList : List Mp4Atom → Bool
  | [] => true
  | a :: as => sizeOkB a && sizeOkList as

end

/-- The atoms constructible by the fly_mp4.c tree API: parsed from a file
(`_BarFlyMp4FileParseAtom`), freshly opened (`_BarFlyMp4AtomOpen`), or
obtained by appending payload bytes (`_BarFlyMp4AtomAppendData`) or a
previously built child (`_BarFlyMp4AtomAddChild`) somewhere in a built
tree. -/
inductive BuiltAtom (file : List Nat) : Mp4Atom → Prop where
  | parsed : ∀ fuel pos a p, parseAtom file fuel pos = some (a, p) → BuiltAtom file a
  | opened : ∀ nm off, BuiltAtom file (barFlyMp4AtomOpen nm off)
  | appended : ∀ a path bytes a2, BuiltAtom file a →
      appendDataAt file bytes a path = some a2 → BuiltAtom file a2
  | childAdded : ∀ a c path a2, BuiltAtom file a → BuiltAtom file c →
      addChildAt c a path = some a2 → BuiltAtom file a2

/-! ## C1: the `stco` offset update, byte level -/

/-- The `i`-th 32-bit chunk-offset entry of an `stco` payload (the table
header is 8 bytes: version/flags then the entry count). -/
def stcoEntry (d : List Nat) (i : Nat) : Nat := readU32 (d.drop (8 + 4 * i))

/-- The entry count of an `stco` payload. -/
def stcoCount (d : List Nat) : Nat := readU32 (d.drop 4)

/-- Well-formedness of an `stco` payload as laid out in a real file:
bytes, a small entry count, and enough room for the whole table. -/
def stcoWf (d : List Nat) : Prop :=
  (∀ b ∈ d, b < 256) ∧ stcoCount d < 2 ^ 31 ∧ 8 + 4 * stcoCount d ≤ d.length

/-- Folding `_BarFlyMp4TagUpdateOffsets` payload rewrites over a list of
deltas, in call order. -/
def applyStcoUpdates : List Nat → List Nat → List Nat
  | [], d => d
  | delta :: rest, d => applyStcoUpdates rest (stcoDataUpdate delta d)

/-- A sequence of `_BarFlyMp4TagAddAtom` calls, each with
`update_offsets = true`, threading the tag's top-level atom array. -/
def runAddSteps (file : List Nat) : List Mp4Atom → List (List String × Mp4Atom) →
    Option (List Mp4Atom)
  | atoms, [] => some atoms
  | atoms, (q, a) :: rest =>
    match barFlyMp4TagAddAtom file atoms q a true with
    | none => none
    | some atoms' => runAddSteps file atoms' rest

/-- The sum of the sizes of the attached atoms, each taken at the moment it
is attached (an atom's own recorded size is not changed by attaching it). -/
def sumStepSizes : List (List String × Mp4Atom) → Nat
  | [] => 0
  | (_, a) :: rest => a.size + sumStepSizes rest

/-- Concrete `stco` payload for the C1 witness: version/flags, count 2,
entries 500 and 900. -/
def c1StcoData : List Nat :=
  [0, 0, 0, 0, 0, 0, 0, 2, 0, 0, 1, 244, 0, 0, 3, 132]

/-- Concrete `stco` atom for the C1 witness. -/
def c1Stco : Mp4Atom := .node "stco" 24 16 (some c1StcoData) 40 []

/-- Concrete `moov` tree for the C1 witness. -/
def c1Moov : Mp4Atom :=
  .node "moov" 64 0 none 32
    [.node "trak" 56 0 none 40
      [.node "mdia" 48 0 none 48
        [.node "minf" 40 0 none 56
          [.node "stbl" 32 0 none 64 [c1Stco]]]]]

/-- The single attach step of the C1 witness: a fresh `udta` atom (size 8)
added under `moov` with `update_offsets = true`. -/
def c1Steps : List (List String × Mp4Atom) :=
  [(["moov"], barFlyMp4AtomOpen "udta" (-1))]

/-! ## C8: `_BarFlyMp4TagAddMetaAtom` -/

/-- `BAR_FLY_MP4_ATOM_META_DATA`. -/
def barFlyMp4AtomMetaData : List Nat := [0, 0, 0, 0]

/-- `BAR_FLY_MP4_ATOM_HDLR_DATA`: 8 zero bytes, `"mdirappl"`, 9 zero bytes. -/
def barFlyMp4AtomHdlrData : List Nat :=
  [0, 0, 0, 0, 0, 0, 0, 0, 109, 100, 105, 114, 97, 112, 112, 108,
   0, 0, 0, 0, 0, 0, 0, 0, 0]

/-- The `NULL_DATA` constant of `_BarFlyMp4TagAddMetaAtom`. -/
def mp4NullData : List Nat := [0, 0, 0, 0]

/-- `_BarFlyMp4TagAddAtom` with an explicit allocation outcome: `alloc`
models whether the `realloc` inside `_BarFlyMp4AtomAddChild` (or of the
top-level atom array) succeeds; when it fails nothing is attached and the
call reports failure. -/
def tagAddAtomAlloc (file : List Nat) (atoms : List Mp4Atom) (path : List String)
    (a : Mp4Atom) (upd : Bool) (alloc : Bool) : Option (List Mp4Atom) :=
  if alloc then barFlyMp4TagAddAtom file atoms path a upd else none

/-- The tail of `_BarFlyMp4TagAddMetaAtom`: build the `data` atom (class
bytes, 4 zero bytes, then the value bytes), attach it to the fresh named
metadata atom (`aChild` models that `_BarFlyMp4AtomAddChild`'s allocation,
which the C code checks), then attach the metadata atom under
`moov.udta.meta.ilst` — whose status the C code ignores
(`if (status != 0) { }`), so the function returns 0 regardless. -/
def addMetaValueAtom (file : List Nat) (t : List Mp4Atom) (nm : String)
    (cls dataBytes : List Nat) (aChild aFinal : Bool) : Int × List Mp4Atom :=
  let dataAtom :=
    atomAppendData file dataBytes
      (atomAppendData file mp4NullData
        (atomAppendData file cls (barFlyMp4AtomOpen "data" (-1))))
  if aChild then
    -- adding a child to the parentless fresh atom itself; the empty path
    -- always succeeds, so the default of getD is never used
    let metaAtom := (addChildAt dataAtom (barFlyMp4AtomOpen nm (-1)) []).getD
      (barFlyMp4AtomOpen nm (-1))
    match tagAddAtomAlloc file t ["moov", "udta", "meta", "ilst"] metaAtom true aFinal with
    | some t2 => (0, t2)
    | none => (0, t)
  else (-1, t)

/-- `_BarFlyMp4TagAddMetaAtom`.  The `a…` booleans are the allocation
outcomes of the successive attach operations (udta, meta, hdlr, ilst, the
value atom's `data` child, and the final attach of the value atom).  The
udta attach status is ignored by the C code (`if (status != 0) { }`); the
meta, hdlr and ilst attach statuses are checked; the final attach status is
ignored again. -/
def barFlyMp4TagAddMetaAtom (file : List Nat) (atoms : List Mp4Atom) (nm : String)
    (cls dataBytes : List Nat) (aUdta aMeta aHdlr aIlst aChild aFinal : Bool) :
    Int × List Mp4Atom :=
  if (tagFindAtom atoms ["moov", "udta", "meta", "ilst"]).isNone then
    let t1 : List Mp4Atom :=
      if (tagFindAtom atoms ["moov", "udta"]).isNone then
        match tagAddAtomAlloc file atoms ["moov"] (barFlyMp4AtomOpen "udta" (-1)) true aUdta with
        | some t => t
        | none => atoms
      else atoms
    let step2 : Option (List Mp4Atom) :=
      if (tagFindAtom t1 ["moov", "udta", "meta"]).isNone then
        tagAddAtomAlloc file t1 ["moov", "udta"]
          (atomAppendData file barFlyMp4AtomMetaData (barFlyMp4AtomOpen "meta" (-1))) true aMeta
      else some t1
    match step2 with
    | none => (-1, t1)
    | some t2 =>
      let step3 : Option (List Mp4Atom) :=
        if (tagFindAtom t2 ["moov", "udta", "meta", "hdlr"]).isNone then
          tagAddAtomAlloc file t2 ["moov", "udta", "meta"]
            (atomAppendData file barFlyMp4AtomHdlrData (barFlyMp4AtomOpen "hdlr" (-1))) true aHdlr
        else some t2
      match step3 with
      | none => (-1, t2)
      | some t3 =>
        match tagAddAtomAlloc file t3 ["moov", "udta", "meta"]
            (barFlyMp4AtomOpen "ilst" (-1)) true aIlst with
        | none => (-1, t3)
        | some t4 => addMetaValueAtom file t4 nm cls dataBytes aChild aFinal
  else addMetaValueAtom file atoms nm cls dataBytes aChild aFinal

/-- The name `"\251ART"` of the artist metadata atom (`0xA9` then `ART`). -/
def mp4ArtistAtomName : String := String.mk [Char.ofNat 169, 'A', 'R', 'T']

/-- `BAR_FLY_MP4_ATOM_ARTIST_CLASS`. -/
def mp4ArtistClass : List Nat := [0, 0, 0, 1]

/-- A concrete tag with the full `moov.udta.meta.ilst` chain for the C8
witness. -/
def c8Tag : List Mp4Atom :=
  [.node "moov" 69 0 none 32
    [.node "udta" 61 0 none (-1)
      [.node "meta" 53 4 (some [0, 0, 0, 0]) (-1)
        [.node "hdlr" 33 25 (some barFlyMp4AtomHdlrData) (-1) [],
         .node "ilst" 8 0 none (-1) []]]]]

/-! ## fly.c: name sanitisation (`_BarFlyNameTranslate`) and the path
renderer (`_BarFlyFileGetPath`) -/

/-- `_BarFlyNameTranslate`.  The character classification follows the C
`for` loop exactly; the `n` parameter is accepted as in the C source —
whose doc comment says at most `n` bytes are copied — but the loop never
consults it: it runs to the end of `src`.  (`Char.ofNat 96` is the
backquote, `Char.ofNat 34` the double quote.) -/
def barFlyNameTranslate (src : List Char) (n : Nat) (useSpaces : Bool) : List Char :=
  match src with
  | [] => []
  | c :: rest =>
    if c = '/' ∨ c = '\\' ∨ c = '|' ∨ c = ':' ∨ c = ';' ∨ c = '*' ∨ c = Char.ofNat 96 then
      '-' :: barFlyNameTranslate rest n useSpaces
    else if c = '<' then
      '(' :: barFlyNameTranslate rest n useSpaces
    else if c = '>' then
      ')' :: barFlyNameTranslate rest n useSpaces
    else if c = ' ' ∧ useSpaces = false then
      '_' :: barFlyNameTranslate rest n useSpaces
    else if c = Char.ofNat 34 ∨ c = '?' then
      barFlyNameTranslate rest n useSpaces
    else
      c :: barFlyNameTranslate rest n useSpaces

/-- Prefix test used for the `strncmp("%token", ptr, k)` checks. -/
def startsWithTok : List Char → List Char → Bool
  | [], _ => true
  | _ :: _, [] => false
  | t :: ts, c :: cs => t == c && startsWithTok ts cs

/-- `sprintf("%hu", v)`: decimal, no padding (the argument is a 16-bit
unsigned value). -/
def renderHu (v : Nat) : List Char := (Nat.repr v).data

/-- `sprintf("%02hu", v)`: decimal, zero-padded to at least two digits. -/
def renderTrack02 (v : Nat) : List Char :=
  if v < 10 then '0' :: (Nat.repr v).data else (Nat.repr v).data

/-- The fill loop of `_BarFlyFileGetPath`: literal bytes are copied up to
each `%`; at a `%` the six tokens are tried in source order; an unknown `%`
advances the pattern pointer by one byte only (`file_pattern_ptr += 1`), so
the byte after it is processed normally on the next iteration.  `pa`,
`pal`, `pt` are the already-sanitised artist/album/title. -/
def barFlyPathFill (pa pal pt : List Char) (year track disc : Nat) :
    List Char → List Char
  | [] => []
  | c :: rest =>
    if c ≠ '%' then c :: barFlyPathFill pa pal pt year track disc rest
    else if startsWithTok "artist".data rest then
      pa ++ barFlyPathFill pa pal pt year track disc (rest.drop 6)
    else if startsWithTok "album".data rest then
      pal ++ barFlyPathFill pa pal pt year track disc (rest.drop 5)
    else if startsWithTok "title".data rest then
      pt ++ barFlyPathFill pa pal pt year track disc (rest.drop 5)
    else if startsWithTok "year".data rest then
      renderHu year ++ barFlyPathFill pa pal pt year track disc (rest.drop 4)
    else if startsWithTok "track".data rest then
      renderTrack02 track ++ barFlyPathFill pa pal pt year track disc (rest.drop 5)
    else if startsWithTok "disc".data rest then
      renderHu disc ++ barFlyPathFill pa pal pt year track disc (rest.drop 4)
    else
      barFlyPathFill pa pal pt year track disc rest
termination_by p => p.length
decreasing_by
  all_goals simp [List.length_drop]
  all_goals omega

/-- `PianoAudioFormat_t`, restricted to what the recorder distinguishes
(a build with both FAAD and MAD enabled). -/
inductive AudioFormat : Type where
  | aacplus | mp3 | mp3hi | other
deriving DecidableEq, Repr

/-- `BAR_FLY_NAME_LENGTH` (fly.h): the artist/album/title buffers are 256
bytes, 255 content bytes plus the terminating NUL. -/
def BAR_FLY_NAME_LENGTH : Nat := 256

/-- `_BarFlyFileGetPath`: sanitise the three names, pick the extension from
the audio format (failing on an unsupported one), and render the template. -/
def barFlyFileGetPath (artist album title : List Char) (year track disc : Nat)
    (fmt : AudioFormat) (template : List Char) (useSpaces : Bool) : Option (List Char) :=
  let pa := barFlyNameTranslate artist BAR_FLY_NAME_LENGTH useSpaces
  let pal := barFlyNameTranslate album BAR_FLY_NAME_LENGTH useSpaces
  let pt := barFlyNameTranslate title BAR_FLY_NAME_LENGTH useSpaces
  match fmt with
  | .aacplus => some (barFlyPathFill pa pal pt year track disc template ++ ".m4a".data)
  | .mp3 => some (barFlyPathFill pa pal pt year track disc template ++ ".mp3".data)
  | .mp3hi => some (barFlyPathFill pa pal pt year track disc template ++ ".mp3".data)
  | .other => none

/-! ## fly.c / fly.h: the recorder (`BarFly_t`, `BarFlyOpen`, `BarFlyWrite`,
`BarFlyTag`, `BarFlyClose`) -/

/-- `BarFlyStatus_t`. -/
inductive BarFlyStatus : Type where
  | notRecording | notRecordingExist | recording | deleting | tagging
deriving DecidableEq, Repr

/-- `BarFly_t`.  Pointers are modelled by what they denote: `audioFileOpen`
is whether an open write stream exists, `audioFilePathSet` whether
`audio_file_path` is non-NULL. -/
structure BarFly : Type where
  audioFileOpen : Bool
  audioFilePathSet : Bool
  audioFormat : AudioFormat
  completed : Bool
  artist : List Char
  album : List Char
  title : List Char
  year : Nat
  track : Nat
  disc : Nat
  coverArtUrl : Option (List Char)
  status : BarFlyStatus
deriving DecidableEq, Repr

/-- One parent directory of the audio file, for `_BarFlyFileDelete`'s
`rmdir` walk: whether it still exists, and whether it holds entries other
than the next component of the audio file's path. -/
structure DirState : Type where
  present : Bool
  hasOtherEntries : Bool
deriving DecidableEq, Repr

/-- The slice of the file system `_BarFlyFileDelete` touches: the audio
file and its chain of parent directories, deepest first. -/
structure FlyFs : Type where
  fileExists : Bool
  dirs : List DirState
deriving DecidableEq, Repr

/-- The `rmdir` loop of `_BarFlyFileDelete`: walk the parent directories
deepest first.  A missing directory makes `rmdir` fail with an error other
than `ENOTEMPTY`/`EEXIST`, which aborts the walk with -1; a non-empty one
is tolerated and the walk continues; an empty one is removed.
`childRemoved` tracks whether the chain entry inside the current directory
(initially the just-unlinked file) is gone, which is what makes the
directory empty when it has no other entries. -/
def rmdirWalk : Bool → List DirState → Int × List DirState
  | _, [] => (0, [])
  | childRemoved, d :: rest =>
    if d.present = false then (-1, d :: rest)
    else if d.hasOtherEntries = false ∧ childRemoved = true then
      let (st, rest') := rmdirWalk true rest
      (st, { d with present := false } :: rest')
    else
      let (st, rest') := rmdirWalk false rest
      (st, d :: rest')

/-- `_BarFlyFileDelete`: when the path is set, `unlink` the audio file —
failure (including the file already being gone) jumps to the error exit
before the `rmdir` loop — then remove now-empty parent directories. -/
def barFlyFileDelete (pathSet : Bool) (fs : FlyFs) : Int × FlyFs :=
  if pathSet then
    if fs.fileExists then
      let (st, dirs') := rmdirWalk true fs.dirs
      (st, { fileExists := false, dirs := dirs' })
    else (-1, fs)
  else (0, fs)

/-- `BarFlyClose`: close the stream if one is open (the C pointer is not
cleared, but the stream no longer exists), and if the recording was not
completed, enter DELETING and delete the partial file with its empty
parents.  The path pointer is freed but stays non-NULL, so
`audioFilePathSet` is unchanged. -/
def barFlyClose (fly : BarFly) (fs : FlyFs) : Int × BarFly × FlyFs :=
  let fly0 := { fly with audioFileOpen := false }
  if fly0.completed = false then
    let fly1 := { fly0 with status := BarFlyStatus.deleting }
    let (st, fs') := barFlyFileDelete fly0.audioFilePathSet fs
    ((if st = 0 then 0 else -1), fly1, fs')
  else (0, fly0, fs)

/-- `BarFlyTag`: when the recording is not completed, set TAGGING, run
`_BarFlyTagWrite` (its success is the `tagWriteOk` input — it involves
network and file I/O), and mark the song completed whether or not the tag
was written.  The C function asserts `fly->audio_file != NULL` and never
closes it. -/
def barFlyTag (fly : BarFly) (tagWriteOk : Bool) : Int × BarFly :=
  if fly.completed = false then
    ((if tagWriteOk then 0 else -1),
      { fly with status := BarFlyStatus.tagging, completed := true })
  else (0, fly)

/-- `fwrite(data, data_size, 1, file)`: the number of complete items
written, given how many bytes the stream accepted.  Per C99, when the item
size is zero `fwrite` returns zero. -/
def fwriteSingleItem (dataSize written : Nat) : Nat :=
  if dataSize = 0 then 0 else written / dataSize

/-- `BarFlyWrite`: a no-op returning 0 once completed; otherwise a single
`fwrite` item of `dataSize` bytes, failing unless exactly one item is
written. -/
def barFlyWrite (fly : BarFly) (dataSize written : Nat) : Int :=
  if fly.completed = false then
    if fwriteSingleItem dataSize written = 1 then 0 else -1
  else 0

/-- The recorder invariant claimed by C6: an open write handle exists iff
the status is RECORDING. -/
def handleIffRecording (fly : BarFly) : Prop :=
  fly.audioFileOpen = true ↔ fly.status = BarFlyStatus.recording

/-- A recorder freshly opened in the RECORDING state. -/
def c6Fly : BarFly :=
  { audioFileOpen := true, audioFilePathSet := true, audioFormat := .aacplus,
    completed := false, artist := ['A'], album := ['B'], title := ['C'],
    year := 0, track := 0, disc := 0, coverArtUrl := none,
    status := BarFlyStatus.recording }

/-- A directory chain of two empty, present parents. -/
def c7Fs : FlyFs := { fileExists := true, dirs := [⟨true, false⟩, ⟨true, false⟩] }

/-- A non-completed recorder whose partial file exists. -/
def c7Fly : BarFly :=
  { audioFileOpen := true, audioFilePathSet := true, audioFormat := .aacplus,
    completed := false, artist := ['A'], album := ['B'], title := ['C'],
    year := 0, track := 0, disc := 0, coverArtUrl := none,
    status := BarFlyStatus.recording }

/-! ## C9: `BarFlyOpen` -/

/-- `_BarFlyFileOpen`'s three outcomes: opened for writing (0), the file
already exists (-2), or a fatal error (-1). -/
inductive OpenOutcome : Type where
  | ok | alreadyExists | fatal
deriving DecidableEq, Repr

/-- The I/O environment of one `BarFlyOpen` call: the outcomes of the two
page fetches, of the three best-effort parses, and of the exclusive file
open. -/
structure OpenEnv : Type where
  detailFetchOk : Bool
  parsedYear : Option Nat
  parsedCoverUrl : Option (List Char)
  explorerFetchOk : Bool
  parsedTrackDisc : Option (Nat × Nat)
  openOutcome : OpenOutcome
deriving DecidableEq, Repr

/-- The song context handed to `BarFlyOpen`. -/
structure SongInfo : Type where
  artist : List Char
  album : List Char
  title : List Char
  audioFormat : AudioFormat
deriving DecidableEq, Repr

/-- The worst-outcome status `BarFlyOpen` accumulates over the best-effort
scrape steps (each miss sets `exit_status` to -1 without stopping). -/
def barFlyOpenScrapeStatus (env : OpenEnv) : Int :=
  if env.detailFetchOk = false ∨ (env.detailFetchOk = true ∧ env.parsedYear = none) ∨
     (env.detailFetchOk = true ∧ env.parsedCoverUrl = none) ∨
     env.explorerFetchOk = false ∨
     (env.explorerFetchOk = true ∧ env.parsedTrackDisc = none)
  then -1 else 0

/-- The local `output_fly` of `BarFlyOpen` after the metadata scraping and
before the path/open steps: names copied (truncated to 255 bytes by
`strncpy` into the 256-byte buffers), year/cover from the album detail
page, track/disc from the album explorer page, each left zero/absent when
its fetch or parse missed. -/
def barFlyOpenScraped (env : OpenEnv) (song : SongInfo) : BarFly :=
  let f0 : BarFly :=
    { audioFileOpen := false, audioFilePathSet := false,
      audioFormat := song.audioFormat, completed := false,
      artist := song.artist.take 255, album := song.album.take 255,
      title := song.title.take 255, year := 0, track := 0, disc := 0,
      coverArtUrl := none, status := BarFlyStatus.notRecording }
  let f1 := if env.detailFetchOk then
      { f0 with year := env.parsedYear.getD 0, coverArtUrl := env.parsedCoverUrl }
    else f0
  if env.explorerFetchOk then
    match env.parsedTrackDisc with
    | some (t, d) => { f1 with track := t, disc := d }
    | none => f1
  else f1

/-- `BarFlyOpen`: scrape the metadata best-effort, build the audio file
path, and open the file exclusively.  The caller's structure `fly` is only
overwritten by the final `memcpy`, reached when the open succeeded or the
file already existed; a path-construction failure or a fatal open error
leaves it untouched and returns -1. -/
def barFlyOpen (env : OpenEnv) (song : SongInfo) (template : List Char)
    (useSpaces : Bool) (fly : BarFly) : Int × BarFly :=
  let f2 := barFlyOpenScraped env song
  match barFlyFileGetPath song.artist song.album song.title f2.year f2.track f2.disc
      song.audioFormat template useSpaces with
  | none => (-1, fly)
  | some _ =>
    let f3 := { f2 with audioFilePathSet := true }
    match env.openOutcome with
    | .ok => (barFlyOpenScrapeStatus env,
        { f3 with status := BarFlyStatus.recording, audioFileOpen := true })
    | .alreadyExists => (barFlyOpenScrapeStatus env,
        { f3 with status := BarFlyStatus.notRecordingExist, completed := true })
    | .fatal => (-1, fly)

/-- A concrete environment where the album-detail fetch misses but the
file is created: `BarFlyOpen` returns -1 *and* hands back a recorder in
the RECORDING state, different from the caller's previous content. -/
def c9Env : OpenEnv :=
  { detailFetchOk := false, parsedYear := none, parsedCoverUrl := none,
    explorerFetchOk := true, parsedTrackDisc := some (3, 1),
    openOutcome := OpenOutcome.ok }

/-- The song of the C9 witness. -/
def c9Song : SongInfo :=
  { artist := ['A'], album := ['B'], title := ['C'], audioFormat := AudioFormat.mp3 }

/-! ## C3: the ID3 tag-level options set by `_BarFlyTagID3Write`

`id3_tag_options` is part of libid3tag (an external dependency, not part
of this repository): `id3_tag_options(tag, mask, values)` sets the options
named in `mask` to the corresponding bits of `values`,
`options = (options & ~mask) | (values & mask)`, on a 32-bit option word.
`_BarFlyTagID3Write` calls it with all four option bits in the mask and
`values = 0`. -/

def ID3_TAG_OPTION_UNSYNCHRONISATION : Nat := 1

def ID3_TAG_OPTION_COMPRESSION : Nat := 2

def ID3_TAG_OPTION_CRC : Nat := 4

def ID3_TAG_OPTION_APPENDEDTAG : Nat := 16

/-- libid3tag's `id3_tag_options(tag, mask, values)` on the 32-bit options
word: the masked bits are replaced by the corresponding bits of `values`. -/
def id3TagOptions (options mask values : Nat) : Nat :=
  (options &&& ((2 ^ 32 - 1) ^^^ mask)) ||| (values &&& mask)

/-- The mask `_BarFlyTagID3Write` passes: all four tag-level options. -/
def barFlyId3OptionsMask : Nat :=
  ID3_TAG_OPTION_UNSYNCHRONISATION ||| ID3_TAG_OPTION_APPENDEDTAG |||
    ID3_TAG_OPTION_CRC ||| ID3_TAG_OPTION_COMPRESSION

/-- The default options of a tag from libid3tag's `id3_tag_new`
(unsynchronisation and compression; its exact value is immaterial below —
the options call masks all four bits whatever the starting value). -/
def id3TagNewOptions : Nat :=
  ID3_TAG_OPTION_UNSYNCHRONISATION ||| ID3_TAG_OPTION_COMPRESSION

/-- The options word of every tag built by `_BarFlyTagID3Write`: the word
after `id3_tag_options(tag, UNSYNC | APPENDED | CRC | COMPRESSION, 0)`. -/
def barFlyId3TagOptionsWord : Nat :=
  id3TagOptions id3TagNewOptions barFlyId3OptionsMask 0

/-! ## Theorems -/

theorem readU32_longRender (x : Nat) : readU32 (barFlyMp4LongRender x) = x % 2 ^ 32 := by
  simp only [readU32, barFlyMp4LongRender, List.getD, List.get?, Option.getD_some]
  omega

theorem longRender_length (x : Nat) : (barFlyMp4LongRender x).length = 4 := rfl

theorem longRender_lt (x : Nat) : ∀ b ∈ barFlyMp4LongRender x, b < 256 := by
  intro b hb
  simp only [barFlyMp4LongRender, List.mem_cons, List.not_mem_nil, or_false] at hb
  rcases hb with h | h | h | h <;> subst h <;> omega

@[simp] theorem Mp4Atom.name_node : (Mp4Atom.node n s ds d off cs).name = n := rfl

@[simp] theorem Mp4Atom.size_node : (Mp4Atom.node n s ds d off cs).size = s := rfl

@[simp] theorem Mp4Atom.dataSize_node : (Mp4Atom.node n s ds d off cs).dataSize = ds := rfl

@[simp] theorem Mp4Atom.data_node : (Mp4Atom.node n s ds d off cs).data = d := rfl

@[simp] theorem Mp4Atom.offset_node : (Mp4Atom.node n s ds d off cs).offset = off := rfl

@[simp] theorem Mp4Atom.children_node : (Mp4Atom.node n s ds d off cs).children = cs := rfl

theorem sumSizes_append (xs ys : List Mp4Atom) :
    sumSizes (xs ++ ys) = sumSizes xs + sumSizes ys := by
  induction xs with
  | nil => simp [sumSizes]
  | cons a as ih => simp [sumSizes, ih]; omega

theorem sizeOkB_node :
    sizeOkB (.node n s ds d off cs) = ((s == 8 + ds + sumSizes cs) && sizeOkList cs) := by
  rw [sizeOkB]

theorem sizeOkList_cons :
    sizeOkList (a :: as) = (sizeOkB a && sizeOkList as) := by
  rw [sizeOkList]

theorem sizeOkList_append (xs ys : List Mp4Atom) :
    sizeOkList (xs ++ ys) = (sizeOkList xs && sizeOkList ys) := by
  induction xs with
  | nil => simp [sizeOkList]
  | cons a as ih => simp only [List.cons_append, sizeOkList_cons, ih, Bool.and_assoc]

/-- The size invariant does not mention the data buffer, and
`materializeAtomData` changes nothing else. -/
theorem sizeOkB_materialize (file : List Nat) (a : Mp4Atom) :
    sizeOkB (materializeAtomData file a) = sizeOkB a := by
  cases a with
  | node n s ds d off cs =>
    rw [materializeAtomData]
    split <;> simp [sizeOkB_node]

theorem materialize_eta (file : List Nat) (a : Mp4Atom) :
    ∃ d, materializeAtomData file a =
      .node a.name a.size a.dataSize d a.offset a.children := by
  cases a with
  | node n s ds d off cs =>
    rw [materializeAtomData]
    split
    · exact ⟨_, rfl⟩
    · exact ⟨_, rfl⟩

theorem atomAppendData_sizeOk (file bytes : List Nat) (a : Mp4Atom)
    (h : sizeOkB a = true) : sizeOkB (atomAppendData file bytes a) = true := by
  rw [atomAppendData]
  split
  · exact h
  · obtain ⟨d, hm⟩ := materialize_eta file a
    rw [hm]
    cases a with
    | node n s ds dd off cs =>
      simp only [Mp4Atom.name_node, Mp4Atom.size_node, Mp4Atom.dataSize_node,
        Mp4Atom.children_node] at *
      rw [sizeOkB_node] at h ⊢
      simp only [Bool.and_eq_true, beq_iff_eq] at h ⊢
      exact ⟨by omega, h.2⟩

theorem atomAppendData_size (file bytes : List Nat) (a : Mp4Atom) :
    (atomAppendData file bytes a).size = a.size + bytes.length := by
  rw [atomAppendData]
  split
  · next hemp => simp at hemp; simp [hemp]
  · obtain ⟨d, hm⟩ := materialize_eta file a
    rw [hm]
    rfl

mutual

theorem appendDataAt_size (file bytes : List Nat) :
    ∀ (a : Mp4Atom) (p : List String) (a2 : Mp4Atom),
    appendDataAt file bytes a p = some a2 → a2.size = a.size + bytes.length
  | a, [], a2 => by
    rw [appendDataAt]
    intro h
    cases h
    exact atomAppendData_size file bytes a
  | .node n s ds d off cs, nm :: rest, a2 => by
    rw [appendDataAt]
    intro h
    match hin : appendDataIn file bytes cs nm rest with
    | some cs' => rw [hin] at h; cases h; rfl
    | none => rw [hin] at h; cases h

theorem appendDataIn_size (file bytes : List Nat) :
    ∀ (as : List Mp4Atom) (nm : String) (rest : List String) (as2 : List Mp4Atom),
    appendDataIn file bytes as nm rest = some as2 →
    sumSizes as2 = sumSizes as + bytes.length
  | [], nm, rest, as2 => by rw [appendDataIn]; intro h; cases h
  | a :: as, nm, rest, as2 => by
    rw [appendDataIn]
    intro h
    split at h
    · match hat : appendDataAt file bytes a rest with
      | some a' =>
        rw [hat] at h
        cases h
        have := appendDataAt_size file bytes a rest a' hat
        simp [sumSizes, this]; omega
      | none => rw [hat] at h; cases h
    · match hin : appendDataIn file bytes as nm rest with
      | some as' =>
        rw [hin] at h
        cases h
        have := appendDataIn_size file bytes as nm rest as' hin
        simp [sumSizes, this]; omega
      | none => rw [hin] at h; cases h

end

mutual

theorem appendDataAt_sizeOk (file bytes : List Nat) :
    ∀ (a : Mp4Atom) (p : List String) (a2 : Mp4Atom),
    appendDataAt file bytes a p = some a2 → sizeOkB a = true → sizeOkB a2 = true
  | a, [], a2 => by
    rw [appendDataAt]
    intro h hok
    cases h
    exact atomAppendData_sizeOk file bytes a hok
  | .node n s ds d off cs, nm :: rest, a2 => by
    rw [appendDataAt]
    intro h hok
    match hin : appendDataIn file bytes cs nm rest with
    | some cs' =>
      rw [hin] at h
      cases h
      rw [sizeOkB_node] at hok ⊢
      simp only [Bool.and_eq_true, beq_iff_eq] at hok ⊢
      have hsum := appendDataIn_size file bytes cs nm rest cs' hin
      have hok' := appendDataIn_sizeOk file bytes cs nm rest cs' hin hok.2
      exact ⟨by omega, hok'⟩
    | none => rw [hin] at h; cases h

theorem appendDataIn_sizeOk (file bytes : List Nat) :
    ∀ (as : List Mp4Atom) (nm : String) (rest : List String) (as2 : List Mp4Atom),
    appendDataIn file bytes as nm rest = some as2 →
    sizeOkList as = true → sizeOkList as2 = true
  | [], nm, rest, as2 => by rw [appendDataIn]; intro h; cases h
  | a :: as, nm, rest, as2 => by
    rw [appendDataIn]
    intro h hok
    rw [sizeOkList_cons] at hok
    simp only [Bool.and_eq_true] at hok
    split at h
    · match hat : appendDataAt file bytes a rest with
      | some a' =>
        rw [hat] at h
        cases h
        rw [sizeOkList_cons]
        simp only [Bool.and_eq_true]
        exact ⟨appendDataAt_sizeOk file bytes a rest a' hat hok.1, hok.2⟩
      | none => rw [hat] at h; cases h
    · match hin : appendDataIn file bytes as nm rest with
      | some as' =>
        rw [hin] at h
        cases h
        rw [sizeOkList_cons]
        simp only [Bool.and_eq_true]
        exact ⟨hok.1, appendDataIn_sizeOk file bytes as nm rest as' hin hok.2⟩
      | none => rw [hin] at h; cases h

end

theorem addChildAt_size (c : Mp4Atom) :
    ∀ (a : Mp4Atom) (p : List String) (a2 : Mp4Atom),
    addChildAt c a p = some a2 → a2.size = a.size + c.size := by
  intro a p a2 h
  match a, p with
  | .node n s ds d off cs, [] => rw [addChildAt] at h; cases h; rfl
  | .node n s ds d off cs, nm :: rest =>
    rw [addChildAt] at h
    match hin : addChildIn c cs nm rest with
    | some cs' => rw [hin] at h; cases h; rfl
    | none => rw [hin] at h; cases h

theorem addChildIn_size (c : Mp4Atom) :
    ∀ (as : List Mp4Atom) (nm : String) (rest : List String) (as2 : List Mp4Atom),
    addChildIn c as nm rest = some as2 → sumSizes as2 = sumSizes as + c.size
  | [], nm, rest, as2 => by rw [addChildIn]; intro h; cases h
  | a :: as, nm, rest, as2 => by
    rw [addChildIn]
    intro h
    split at h
    · match hat : addChildAt c a rest with
      | some a' =>
        rw [hat] at h
        cases h
        have := addChildAt_size c a rest a' hat
        simp [sumSizes, this]; omega
      | none => rw [hat] at h; cases h
    · match hin : addChildIn c as nm rest with
      | some as' =>
        rw [hin] at h
        cases h
        have := addChildIn_size c as nm rest as' hin
        simp [sumSizes, this]; omega
      | none => rw [hin] at h; cases h

mutual

theorem addChildAt_sizeOk (c : Mp4Atom) (hc : sizeOkB c = true) :
    ∀ (a : Mp4Atom) (p : List String) (a2 : Mp4Atom),
    addChildAt c a p = some a2 → sizeOkB a = true → sizeOkB a2 = true
  | .node n s ds d off cs, [], a2 => by
    rw [addChildAt]
    intro h hok
    cases h
    rw [sizeOkB_node] at hok ⊢
    simp only [Bool.and_eq_true, beq_iff_eq] at hok ⊢
    refine ⟨?_, ?_⟩
    · rw [sumSizes_append]; simp [sumSizes]; omega
    · rw [sizeOkList_append]
      simp only [Bool.and_eq_true]
      exact ⟨hok.2, by rw [sizeOkList_cons]; simp [hc, sizeOkList]⟩
  | .node n s ds d off cs, nm :: rest, a2 => by
    rw [addChildAt]
    intro h hok
    match hin : addChildIn c cs nm rest with
    | some cs' =>
      rw [hin] at h
      cases h
      rw [sizeOkB_node] at hok ⊢
      simp only [Bool.and_eq_true, beq_iff_eq] at hok ⊢
      have hsum := addChildIn_size c cs nm rest cs' hin
      exact ⟨by omega, addChildIn_sizeOk c hc cs nm rest cs' hin hok.2⟩
    | none => rw [hin] at h; cases h

theorem addChildIn_sizeOk (c : Mp4Atom) (hc : sizeOkB c = true) :
    ∀ (as : List Mp4Atom) (nm : String) (rest : List String) (as2 : List Mp4Atom),
    addChildIn c as nm rest = some as2 → sizeOkList as = true → sizeOkList as2 = true
  | [], nm, rest, as2 => by rw [addChildIn]; intro h; cases h
  | a :: as, nm, rest, as2 => by
    rw [addChildIn]
    intro h hok
    rw [sizeOkList_cons] at hok
    simp only [Bool.and_eq_true] at hok
    split at h
    · match hat : addChildAt c a rest with
      | some a' =>
        rw [hat] at h
        cases h
        rw [sizeOkList_cons]
        simp only [Bool.and_eq_true]
        exact ⟨addChildAt_sizeOk c hc a rest a' hat hok.1, hok.2⟩
      | none => rw [hat] at h; cases h
    · match hin : addChildIn c as nm rest with
      | some as' =>
        rw [hin] at h
        cases h
        rw [sizeOkList_cons]
        simp only [Bool.and_eq_true]
        exact ⟨hok.1, addChildIn_sizeOk c hc as nm rest as' hin hok.2⟩
      | none => rw [hin] at h; cases h

end

theorem parseAtomSize_ge (file : List Nat) (pos : Nat) (sz : Nat)
    (h : parseAtomSize file pos = some sz) : 8 ≤ sz := by
  rw [parseAtomSize] at h
  match hb : readBytes file pos 4 with
  | none => rw [hb] at h; cases h
  | some b =>
    rw [hb] at h
    simp only at h
    split at h
    · cases h
    · next hlt => cases h; omega

mutual

theorem parseAtom_sizeOk (file : List Nat) :
    ∀ (fuel pos : Nat) (a : Mp4Atom) (p' : Nat),
    parseAtom file fuel pos = some (a, p') → sizeOkB a = true
  | 0, pos, a, p' => by rw [parseAtom]; intro h; cases h
  | fuel + 1, pos, a, p' => by
    rw [parseAtom]
    intro h
    match hsz : parseAtomSize file pos with
    | none => rw [hsz] at h; cases h
    | some sizeL =>
      rw [hsz] at h
      match hnm : parseAtomName file (pos + 4) with
      | none => rw [hnm] at h; cases h
      | some nm =>
        rw [hnm] at h
        simp only at h
        have hge := parseAtomSize_ge file pos sizeL hsz
        split at h
        · cases h
        · next ds sz heq =>
          refine parseChildren_sizeOk file fuel _ _ _ a p' h ?_
          rw [sizeOkB_node]
          split at heq
          · cases heq; simp [sumSizes, sizeOkList]
          · split at heq
            · cases heq; simp [sumSizes, sizeOkList]; omega
            · split at heq
              · cases heq; simp [sumSizes, sizeOkList]
              · split at heq
                · cases heq; simp [sumSizes, sizeOkList]
                · cases heq

theorem parseChildren_sizeOk (file : List Nat) :
    ∀ (fuel pos remaining : Nat) (parent : Mp4Atom) (a : Mp4Atom) (p' : Nat),
    parseChildren file fuel pos remaining parent = some (a, p') →
    sizeOkB parent = true → sizeOkB a = true
  | 0, pos, remaining, parent, a, p' => by rw [parseChildren]; intro h; cases h
  | fuel + 1, pos, remaining, parent, a, p' => by
    rw [parseChildren]
    intro h hok
    split at h
    · cases h; exact hok
    · match hc : parseAtom file fuel pos with
      | none => rw [hc] at h; cases h
      | some (child, pos2) =>
        rw [hc] at h
        simp only at h
        split at h
        · cases h
        · match parent with
          | .node n s ds d off cs =>
            refine parseChildren_sizeOk file fuel _ _ _ a p' h ?_
            have hcok := parseAtom_sizeOk file fuel pos child pos2 hc
            rw [sizeOkB_node] at hok ⊢
            simp only [Bool.and_eq_true, beq_iff_eq] at hok ⊢
            refine ⟨?_, ?_⟩
            · rw [sumSizes_append]; simp [sumSizes]; omega
            · rw [sizeOkList_append]
              simp only [Bool.and_eq_true]
              exact ⟨hok.2, by rw [sizeOkList_cons]; simp [hcok, sizeOkList]⟩

end

/-- **C2.**  For every atom in the tag's tree, after any sequence of parse,
append-data and add-child operations (and hence immediately before render),
the recorded size equals 8 + the payload byte count + the sum of the
children's recorded sizes: `sizeOkB` checks exactly that at every node, and
every atom built by the fly_mp4.c operations satisfies it — append-data and
add-child maintain it by bumping every atom along the parent chain by the
delta, as `_BarFlyMp4AtomBumpSize` does. -/
theorem c2_mp4_size_accounting (file : List Nat) (a : Mp4Atom)
    (h : BuiltAtom file a) : sizeOkB a = true := by
  induction h with
  | parsed fuel pos a p hp => exact parseAtom_sizeOk file fuel pos a p hp
  | opened nm off => rw [barFlyMp4AtomOpen, sizeOkB_node]; simp [sumSizes, sizeOkList]
  | appended a path bytes a2 _ happ ih => exact appendDataAt_sizeOk file bytes a path a2 happ ih
  | childAdded a c path a2 _ _ hadd iha ihc => exact addChildAt_sizeOk c ihc a path a2 hadd iha

/-- Witness for C2: a concrete `data` atom with 8 payload bytes appended,
added as the child of a fresh metadata atom, satisfies the size invariant
(sizes 16 and 24). -/
theorem c2_mp4_size_accounting_witness :
    sizeOkB (.node "trkn" 24 0 none (-1) [.node "data" 16 8 (some [0, 0, 0, 0, 0, 0, 0, 0]) (-1) []]) = true :=
  c2_mp4_size_accounting [] _
    (BuiltAtom.childAdded _ _ [] _
      (BuiltAtom.opened "trkn" (-1))
      (BuiltAtom.appended _ [] [0, 0, 0, 0, 0, 0, 0, 0] _
        (BuiltAtom.opened "data" (-1)) (by rfl))
      (by rfl))

theorem readU32_lt (b : List Nat) (hb : ∀ x ∈ b, x < 256) : readU32 b < 2 ^ 32 := by
  have h : ∀ i, b.getD i 0 < 256 := by
    intro i
    by_cases h : i < b.length
    · rw [List.getD_eq_getElem _ _ h]
      exact hb _ (List.getElem_mem h)
    · rw [List.getD_eq_default _ _ (by omega)]; omega
  have h0 := h 0; have h1 := h 1; have h2 := h 2; have h3 := h 3
  rw [readU32]; omega

theorem bufToLong_eq_readU32 (b : List Nat) (h : readU32 b < 2 ^ 31) :
    barFlyMp4BufToLong b = readU32 b := by
  rw [barFlyMp4BufToLong]; simp only [if_pos h]

/-- The stored bytes of one bumped entry: the int-promotion sign extension
inside `_BarFlyMp4BufToLong` only sets bits 32..63, which the 4-byte
`_BarFlyMp4LongRender` discards, so the written entry is the 32-bit sum. -/
theorem render_bump (b : List Nat) (hb : ∀ x ∈ b, x < 256) (delta : Nat) :
    readU32 (barFlyMp4LongRender ((barFlyMp4BufToLong b + delta) % 2 ^ 64))
      = (readU32 b + delta) % 2 ^ 32 := by
  rw [readU32_longRender]
  have hv := readU32_lt b hb
  rw [barFlyMp4BufToLong]
  split <;> omega

theorem readU32_append (l rest : List Nat) (h : l.length = 4) :
    readU32 (l ++ rest) = readU32 l := by
  match l, h with
  | [a, b, c, e], _ => rfl

theorem drop_append4 (l rest : List Nat) (h : l.length = 4) (k : Nat) :
    (l ++ rest).drop (k + 4) = rest.drop k := by
  match l, h with
  | [a, b, c, e], _ => rfl

theorem bumpEntries_length (delta : Nat) :
    ∀ (count : Nat) (bytes : List Nat), 4 * count ≤ bytes.length →
    (bumpEntries delta count bytes).length = bytes.length
  | 0, bytes, _ => rfl
  | count + 1, bytes, h => by
    rw [bumpEntries]
    have hlen : (bytes.drop 4).length = bytes.length - 4 := List.length_drop 4 bytes
    have := bumpEntries_length delta count (bytes.drop 4) (by omega)
    simp [List.length_append, this, hlen, longRender_length]
    omega

theorem bumpEntries_lt (delta : Nat) :
    ∀ (count : Nat) (bytes : List Nat), (∀ x ∈ bytes, x < 256) →
    ∀ x ∈ bumpEntries delta count bytes, x < 256
  | 0, bytes, hb => hb
  | count + 1, bytes, hb => by
    rw [bumpEntries]
    intro x hx
    rcases List.mem_append.mp hx with h | h
    · exact longRender_lt _ x h
    · exact bumpEntries_lt delta count (bytes.drop 4) (fun y hy => hb y (List.mem_of_mem_drop hy)) x h

theorem bumpEntries_entry (delta : Nat) :
    ∀ (count i : Nat) (bytes : List Nat), i < count → (∀ x ∈ bytes, x < 256) →
    readU32 ((bumpEntries delta count bytes).drop (4 * i))
      = (readU32 (bytes.drop (4 * i)) + delta) % 2 ^ 32
  | 0, i, bytes, hi, _ => absurd hi (by omega)
  | count + 1, i, bytes, hi, hb => by
    rw [bumpEntries]
    match i with
    | 0 =>
      rw [Nat.mul_zero, List.drop_zero, readU32_append _ _ (longRender_length _)]
      exact render_bump bytes hb delta
    | j + 1 =>
      have hdrop : (barFlyMp4LongRender ((barFlyMp4BufToLong bytes + delta) % 2 ^ 64)
          ++ bumpEntries delta count (bytes.drop 4)).drop (4 * (j + 1))
          = (bumpEntries delta count (bytes.drop 4)).drop (4 * j) := by
        rw [show 4 * (j + 1) = 4 * j + 4 by omega]
        exact drop_append4 _ _ (longRender_length _) _
      rw [hdrop]
      have := bumpEntries_entry delta count j (bytes.drop 4) (by omega)
        (fun y hy => hb y (List.mem_of_mem_drop hy))
      rw [this]
      have harg : (bytes.drop 4).drop (4 * j) = bytes.drop (4 * (j + 1)) := by
        rw [List.drop_drop]
        congr 1
        omega
      rw [harg]

theorem exists_cons8 (d : List Nat) (hlen : 8 ≤ d.length) :
    ∃ x0 x1 x2 x3 x4 x5 x6 x7 tail,
      d = x0 :: x1 :: x2 :: x3 :: x4 :: x5 :: x6 :: x7 :: tail := by
  rcases d with _ | ⟨x0, d⟩; · simp at hlen
  rcases d with _ | ⟨x1, d⟩; · simp at hlen
  rcases d with _ | ⟨x2, d⟩; · simp at hlen
  rcases d with _ | ⟨x3, d⟩; · simp at hlen
  rcases d with _ | ⟨x4, d⟩; · simp at hlen
  rcases d with _ | ⟨x5, d⟩; · simp at hlen
  rcases d with _ | ⟨x6, d⟩; · simp at hlen
  rcases d with _ | ⟨x7, d⟩; · simp at hlen
  exact ⟨x0, x1, x2, x3, x4, x5, x6, x7, d, rfl⟩

theorem drop8_cons (x0 x1 x2 x3 x4 x5 x6 x7 : Nat) (tail : List Nat) (k : Nat) :
    (x0 :: x1 :: x2 :: x3 :: x4 :: x5 :: x6 :: x7 :: tail).drop (k + 8) = tail.drop k := rfl

theorem readU32_cons4 (x0 x1 x2 x3 : Nat) (rest rest' : List Nat) :
    readU32 (x0 :: x1 :: x2 :: x3 :: rest) = readU32 (x0 :: x1 :: x2 :: x3 :: rest') := rfl

/-- One `_BarFlyMp4TagUpdateOffsets` pass over a well-formed `stco`
payload: well-formedness, the entry count and the length are preserved, and
every table entry grows by `delta` modulo `2^32`. -/
theorem stcoDataUpdate_spec (delta : Nat) (d : List Nat) (hwf : stcoWf d) :
    stcoWf (stcoDataUpdate delta d) ∧
    stcoCount (stcoDataUpdate delta d) = stcoCount d ∧
    (stcoDataUpdate delta d).length = d.length ∧
    (∀ i, i < stcoCount d →
      stcoEntry (stcoDataUpdate delta d) i = (stcoEntry d i + delta) % 2 ^ 32) := by
  obtain ⟨hb, hcnt, hlen⟩ := hwf
  obtain ⟨x0, x1, x2, x3, x4, x5, x6, x7, tail, rfl⟩ := exists_cons8 d (by omega)
  have hcount_eq : barFlyMp4BufToLong
      ((x0 :: x1 :: x2 :: x3 :: x4 :: x5 :: x6 :: x7 :: tail).drop 4)
      = stcoCount (x0 :: x1 :: x2 :: x3 :: x4 :: x5 :: x6 :: x7 :: tail) :=
    bufToLong_eq_readU32 _ hcnt
  have hupd : stcoDataUpdate delta (x0 :: x1 :: x2 :: x3 :: x4 :: x5 :: x6 :: x7 :: tail)
      = x0 :: x1 :: x2 :: x3 :: x4 :: x5 :: x6 :: x7 ::
        bumpEntries delta (stcoCount (x0 :: x1 :: x2 :: x3 :: x4 :: x5 :: x6 :: x7 :: tail)) tail := by
    rw [stcoDataUpdate]
    rw [hcount_eq]
    rfl
  have htail_lt : ∀ x ∈ tail, x < 256 := by
    intro x hx
    exact hb x (by simp [hx])
  have hbump_lt := bumpEntries_lt delta (stcoCount (x0 :: x1 :: x2 :: x3 :: x4 :: x5 :: x6 :: x7 :: tail)) tail htail_lt
  have htail_len : tail.length = (x0 :: x1 :: x2 :: x3 :: x4 :: x5 :: x6 :: x7 :: tail).length - 8 := by
    simp
  have hbump_len := bumpEntries_length delta
    (stcoCount (x0 :: x1 :: x2 :: x3 :: x4 :: x5 :: x6 :: x7 :: tail)) tail
    (by simp at hlen ⊢; omega)
  have hcount' : stcoCount (stcoDataUpdate delta (x0 :: x1 :: x2 :: x3 :: x4 :: x5 :: x6 :: x7 :: tail))
      = stcoCount (x0 :: x1 :: x2 :: x3 :: x4 :: x5 :: x6 :: x7 :: tail) := by
    rw [hupd, stcoCount, stcoCount]
    exact readU32_cons4 x4 x5 x6 x7 _ _
  have hlen' : (stcoDataUpdate delta (x0 :: x1 :: x2 :: x3 :: x4 :: x5 :: x6 :: x7 :: tail)).length
      = (x0 :: x1 :: x2 :: x3 :: x4 :: x5 :: x6 :: x7 :: tail).length := by
    rw [hupd]
    simp [hbump_len]
  have hentry : ∀ i, i < stcoCount (x0 :: x1 :: x2 :: x3 :: x4 :: x5 :: x6 :: x7 :: tail) →
      stcoEntry (stcoDataUpdate delta (x0 :: x1 :: x2 :: x3 :: x4 :: x5 :: x6 :: x7 :: tail)) i
      = (stcoEntry (x0 :: x1 :: x2 :: x3 :: x4 :: x5 :: x6 :: x7 :: tail) i + delta) % 2 ^ 32 := by
    intro i hi
    rw [hupd, stcoEntry, stcoEntry]
    rw [show 8 + 4 * i = 4 * i + 8 by omega]
    rw [drop8_cons, drop8_cons]
    exact bumpEntries_entry delta _ i tail hi htail_lt
  refine ⟨⟨?_, ?_, ?_⟩, hcount', hlen', hentry⟩
  · rw [hupd]
    intro x hx
    simp only [List.mem_cons] at hx
    rcases hx with h | h | h | h | h | h | h | h | h
    all_goals first
      | (subst h; exact hb _ (by simp))
      | (exact hbump_lt x h)
  · rw [hcount']
    exact hcnt
  · rw [hcount', hlen']
    exact hlen

theorem applyStcoUpdates_spec :
    ∀ (deltas : List Nat) (d : List Nat), stcoWf d →
    stcoWf (applyStcoUpdates deltas d) ∧
    stcoCount (applyStcoUpdates deltas d) = stcoCount d ∧
    (∀ i, i < stcoCount d →
      stcoEntry (applyStcoUpdates deltas d) i = (stcoEntry d i + deltas.sum) % 2 ^ 32)
  | [], d, hwf => by
    refine ⟨hwf, rfl, ?_⟩
    intro i hi
    rw [applyStcoUpdates, List.sum_nil]
    have := readU32_lt (d.drop (8 + 4 * i)) (fun x hx => hwf.1 x (List.mem_of_mem_drop hx))
    rw [stcoEntry]
    omega
  | delta :: rest, d, hwf => by
    obtain ⟨hwf1, hcnt1, _, hent1⟩ := stcoDataUpdate_spec delta d hwf
    obtain ⟨hwfR, hcntR, hentR⟩ := applyStcoUpdates_spec rest (stcoDataUpdate delta d) hwf1
    rw [applyStcoUpdates]
    refine ⟨hwfR, by rw [hcntR, hcnt1], ?_⟩
    intro i hi
    rw [hentR i (by rw [hcnt1]; exact hi), hent1 i hi, List.sum_cons]
    omega

/-! ## C1: stability of `FindAtom` lookups under attach / offset update -/

theorem addChildAt_rootFields (c : Mp4Atom) :
    ∀ (a : Mp4Atom) (q : List String) (a2 : Mp4Atom), addChildAt c a q = some a2 →
    a2.name = a.name ∧ a2.data = a.data ∧ a2.dataSize = a.dataSize ∧ a2.offset = a.offset := by
  intro a q a2 h
  match a, q with
  | .node n s ds d off cs, [] => rw [addChildAt] at h; cases h; exact ⟨rfl, rfl, rfl, rfl⟩
  | .node n s ds d off cs, nm :: rest =>
    rw [addChildAt] at h
    match hin : addChildIn c cs nm rest with
    | some cs' => rw [hin] at h; cases h; exact ⟨rfl, rfl, rfl, rfl⟩
    | none => rw [hin] at h; cases h

theorem findInList_append :
    ∀ (as : List Mp4Atom) (nm : String) (p : List String) (st : Mp4Atom) (c : Mp4Atom),
    findInList as nm p = some st → findInList (as ++ [c]) nm p = some st
  | [], nm, p, st, c => by rw [findInList]; intro h; cases h
  | a :: as, nm, p, st, c => by
    rw [findInList]
    intro h
    rw [List.cons_append, findInList]
    split at h
    · next hc => rw [if_pos hc]; exact h
    · next hc => rw [if_neg hc]; exact findInList_append as nm p st c h

mutual

theorem addChildAt_find (c : Mp4Atom) :
    ∀ (a : Mp4Atom) (q : List String) (a2 : Mp4Atom) (p : List String) (st : Mp4Atom),
    addChildAt c a q = some a2 → findIn a p = some st →
    ∃ st2, findIn a2 p = some st2 ∧ st2.name = st.name ∧ st2.data = st.data ∧
      st2.dataSize = st.dataSize ∧ st2.offset = st.offset
  | .node n s ds d off cs, [], a2, p, st => by
    rw [addChildAt]
    intro h hf
    cases h
    match p with
    | [] =>
      rw [findIn] at hf
      cases hf
      exact ⟨Mp4Atom.node n (s + c.size) ds d off (cs ++ [c]), by rw [findIn], rfl, rfl, rfl, rfl⟩
    | nm :: rest =>
      rw [findIn] at hf ⊢
      exact ⟨st, findInList_append cs nm rest st c hf, rfl, rfl, rfl, rfl⟩
  | .node n s ds d off cs, nm' :: qrest, a2, p, st => by
    rw [addChildAt]
    intro h hf
    match hin : addChildIn c cs nm' qrest with
    | none => rw [hin] at h; cases h
    | some cs' =>
      rw [hin] at h
      cases h
      match p with
      | [] =>
        rw [findIn] at hf
        cases hf
        exact ⟨Mp4Atom.node n (s + c.size) ds d off cs', by rw [findIn], rfl, rfl, rfl, rfl⟩
      | nm :: rest =>
        rw [findIn] at hf ⊢
        exact addChildIn_find c cs nm' qrest cs' nm rest st hin hf

theorem addChildIn_find (c : Mp4Atom) :
    ∀ (as : List Mp4Atom) (nm' : String) (qrest : List String) (as2 : List Mp4Atom)
      (nm : String) (p : List String) (st : Mp4Atom),
    addChildIn c as nm' qrest = some as2 → findInList as nm p = some st →
    ∃ st2, findInList as2 nm p = some st2 ∧ st2.name = st.name ∧ st2.data = st.data ∧
      st2.dataSize = st.dataSize ∧ st2.offset = st.offset
  | [], nm', qrest, as2, nm, p, st => by rw [addChildIn]; intro h; cases h
  | a :: as, nm', qrest, as2, nm, p, st => by
    rw [addChildIn]
    intro h hf
    rw [findInList] at hf
    split at h
    · match hat : addChildAt c a qrest with
      | none => rw [hat] at h; cases h
      | some a' =>
        rw [hat] at h
        cases h
        obtain ⟨hn, _, _, _⟩ := addChildAt_rootFields c a qrest a' hat
        rw [findInList]
        split at hf
        · next hc =>
          rw [if_pos (by rw [hn]; exact hc)]
          exact addChildAt_find c a qrest a' p st hat hf
        · next hc =>
          rw [if_neg (by rw [hn]; exact hc)]
          exact ⟨st, hf, rfl, rfl, rfl, rfl⟩
    · match hin : addChildIn c as nm' qrest with
      | none => rw [hin] at h; cases h
      | some as' =>
        rw [hin] at h
        cases h
        rw [findInList]
        split at hf
        · next hc =>
          rw [if_pos hc]
          exact ⟨st, hf, rfl, rfl, rfl, rfl⟩
        · next hc =>
          rw [if_neg hc]
          exact addChildIn_find c as nm' qrest as' nm p st hin hf

end

/-- When the attach path's head name coincides with the name a top-level
lookup searches for, both commit to the same (first-matching) atom, whose
size grows by the child's size. -/
theorem addChildIn_findHead (c : Mp4Atom) :
    ∀ (as : List Mp4Atom) (nm : String) (qrest : List String) (as2 : List Mp4Atom) (m : Mp4Atom),
    addChildIn c as nm qrest = some as2 → findInList as nm [] = some m →
    ∃ m2, findInList as2 nm [] = some m2 ∧ m2.size = m.size + c.size
  | [], nm, qrest, as2, m => by rw [addChildIn]; intro h; cases h
  | a :: as, nm, qrest, as2, m => by
    rw [addChildIn]
    intro h hf
    rw [findInList] at hf
    split at h
    · next hc =>
      match hat : addChildAt c a qrest with
      | none => rw [hat] at h; cases h
      | some a' =>
        rw [hat] at h
        cases h
        rw [if_pos hc, findIn] at hf
        cases hf
        obtain ⟨hn, _, _, _⟩ := addChildAt_rootFields c a qrest a' hat
        rw [findInList, if_pos (by rw [hn]; exact hc), findIn]
        exact ⟨a', rfl, addChildAt_size c a qrest a' hat⟩
    · next hc =>
      match hin : addChildIn c as nm qrest with
      | none => rw [hin] at h; cases h
      | some as' =>
        rw [hin] at h
        cases h
        rw [if_neg hc] at hf
        rw [findInList, if_neg hc]
        exact addChildIn_findHead c as nm qrest as' m hin hf

theorem mapAt_rootNameSize (f : Mp4Atom → Mp4Atom)
    (hfn : ∀ x, (f x).name = x.name) (hfs : ∀ x, (f x).size = x.size) :
    ∀ (a : Mp4Atom) (p : List String) (a2 : Mp4Atom), mapAt f a p = some a2 →
    a2.name = a.name ∧ a2.size = a.size := by
  intro a p a2 h
  match a, p with
  | a, [] => rw [mapAt] at h; cases h; exact ⟨hfn a, hfs a⟩
  | .node n s ds d off cs, nm :: rest =>
    rw [mapAt] at h
    match hin : mapAtList f cs nm rest with
    | some cs' => rw [hin] at h; cases h; exact ⟨rfl, rfl⟩
    | none => rw [hin] at h; cases h

mutual

theorem mapAt_of_find (f : Mp4Atom → Mp4Atom) (hfn : ∀ x, (f x).name = x.name) :
    ∀ (a : Mp4Atom) (p : List String) (st : Mp4Atom), findIn a p = some st →
    ∃ a2, mapAt f a p = some a2 ∧ findIn a2 p = some (f st)
  | a, [], st => by
    rw [findIn]
    intro hf
    cases hf
    exact ⟨f a, by rw [mapAt], by rw [findIn]⟩
  | .node n s ds d off cs, nm :: rest, st => by
    rw [findIn]
    intro hf
    obtain ⟨cs2, hmap, hfind⟩ := mapAtList_of_find f hfn cs nm rest st hf
    refine ⟨.node n s ds d off cs2, ?_, ?_⟩
    · rw [mapAt, hmap]
    · rw [findIn]; exact hfind

theorem mapAtList_of_find (f : Mp4Atom → Mp4Atom) (hfn : ∀ x, (f x).name = x.name) :
    ∀ (as : List Mp4Atom) (nm : String) (p : List String) (st : Mp4Atom),
    findInList as nm p = some st →
    ∃ as2, mapAtList f as nm p = some as2 ∧ findInList as2 nm p = some (f st)
  | [], nm, p, st => by rw [findInList]; intro h; cases h
  | a :: as, nm, p, st => by
    rw [findInList]
    intro hf
    split at hf
    · next hc =>
      obtain ⟨a2, hmap, hfind⟩ := mapAt_of_find f hfn a p st hf
      refine ⟨a2 :: as, ?_, ?_⟩
      · rw [mapAtList, if_pos hc, hmap]; rfl
      · have hn : a2.name = a.name := by
          match a, hmap with
          | a, hmap =>
            match p, hmap with
            | [], hmap => rw [mapAt] at hmap; cases hmap; exact hfn a
            | nm2 :: rest2, hmap =>
              match a with
              | .node n s ds d off cs =>
                rw [mapAt] at hmap
                match hin : mapAtList f cs nm2 rest2 with
                | some cs' => rw [hin] at hmap; cases hmap; rfl
                | none => rw [hin] at hmap; cases hmap
        rw [findInList, if_pos (by rw [hn]; exact hc)]
        exact hfind
    · next hc =>
      obtain ⟨as2, hmap, hfind⟩ := mapAtList_of_find f hfn as nm p st hf
      refine ⟨a :: as2, ?_, ?_⟩
      · rw [mapAtList, if_neg hc, hmap]; rfl
      · rw [findInList, if_neg hc]; exact hfind

end

theorem mapAtList_findHead (f : Mp4Atom → Mp4Atom)
    (hfn : ∀ x, (f x).name = x.name) (hfs : ∀ x, (f x).size = x.size) :
    ∀ (as : List Mp4Atom) (nm' : String) (rest : List String) (as2 : List Mp4Atom)
      (nm : String) (m : Mp4Atom),
    mapAtList f as nm' rest = some as2 → findInList as nm [] = some m →
    ∃ m2, findInList as2 nm [] = some m2 ∧ m2.size = m.size
  | [], nm', rest, as2, nm, m => by rw [mapAtList]; intro h; cases h
  | a :: as, nm', rest, as2, nm, m => by
    rw [mapAtList]
    intro h hf
    rw [findInList] at hf
    split at h
    · next hc' =>
      match hat : mapAt f a rest with
      | none => rw [hat] at h; cases h
      | some a2 =>
        rw [hat] at h
        cases h
        obtain ⟨hn, hs⟩ := mapAt_rootNameSize f hfn hfs a rest a2 hat
        rw [findInList]
        split at hf
        · next hc =>
          rw [if_pos (by rw [hn]; exact hc), findIn]
          rw [findIn] at hf
          cases hf
          exact ⟨a2, rfl, hs⟩
        · next hc =>
          rw [if_neg (by rw [hn]; exact hc)]
          exact ⟨m, hf, rfl⟩
    · next hc' =>
      match hin : mapAtList f as nm' rest with
      | none => rw [hin] at h; cases h
      | some as' =>
        rw [hin] at h
        cases h
        rw [findInList]
        split at hf
        · next hc =>
          rw [if_pos hc]
          rw [findIn] at hf ⊢
          cases hf
          exact ⟨a, rfl, rfl⟩
        · next hc =>
          rw [if_neg hc]
          exact mapAtList_findHead f hfn hfs as nm' rest as' nm m hin hf

theorem stcoAtomUpdate_fields (file : List Nat) (delta : Nat) (a : Mp4Atom) :
    (stcoAtomUpdate file delta a).name = a.name ∧
    (stcoAtomUpdate file delta a).size = a.size := by
  obtain ⟨d, hm⟩ := materialize_eta file a
  rw [stcoAtomUpdate, hm]
  exact ⟨rfl, rfl⟩

theorem effData_congr (file : List Nat) (a b : Mp4Atom) (h1 : a.data = b.data)
    (h2 : a.dataSize = b.dataSize) (h3 : a.offset = b.offset) :
    effData file a = effData file b := by
  rw [effData, effData, h1, h2, h3]

theorem effData_stcoAtomUpdate (file : List Nat) (delta : Nat) (a : Mp4Atom)
    (hname : a.name = "stco") :
    effData file (stcoAtomUpdate file delta a) = stcoDataUpdate delta (effData file a) := by
  cases a with
  | node n s ds d off cs =>
    simp only [Mp4Atom.name_node] at hname
    subst hname
    rw [stcoAtomUpdate, materializeAtomData]
    match d with
    | some d0 =>
      rw [if_neg (by simp)]
      rfl
    | none =>
      by_cases hds : 0 < ds
      · rw [if_pos ⟨rfl, hds, by rw [parseAtomDataNames]; simp⟩]
        rfl
      · rw [if_neg (by simp; omega)]
        rw [effData, effData]
        simp only [Mp4Atom.data_node, Mp4Atom.dataSize_node, Mp4Atom.offset_node]
        have hds0 : ds = 0 := by omega
        subst hds0
        rfl

mutual

theorem findIn_name : ∀ (a : Mp4Atom) (p : List String) (st : Mp4Atom),
    findIn a p = some st → st.name = p.getLastD a.name
  | a, [], st => by rw [findIn]; intro h; cases h; rfl
  | .node n s ds d off cs, nm :: rest, st => by
    rw [findIn]
    intro h
    rw [List.getLastD_cons]
    exact findInList_name cs nm rest st h

theorem findInList_name : ∀ (as : List Mp4Atom) (nm : String) (p : List String) (st : Mp4Atom),
    findInList as nm p = some st → st.name = p.getLastD nm
  | [], nm, p, st => by rw [findInList]; intro h; cases h
  | a :: as, nm, p, st => by
    rw [findInList]
    intro h
    split at h
    · next hc =>
      have := findIn_name a p st h
      rw [this]
      have : a.name = nm := by
        have := hc
        simpa using this
      rw [this]
    · exact findInList_name as nm p st h

end

/-- One `_BarFlyMp4TagAddAtom` call with `update_offsets = true` whose
parent path starts at `moov`: the `stco` atom is still found at the same
path, its payload has every entry bumped by the added atom's size, and the
top-level `moov` atom's size has grown by exactly that size. -/
theorem tagAddAtom_stcoStep (file : List Nat) (atoms : List Mp4Atom)
    (qrest : List String) (atom : Mp4Atom) (atoms2 : List Mp4Atom)
    (st m : Mp4Atom)
    (hstep : barFlyMp4TagAddAtom file atoms ("moov" :: qrest) atom true = some atoms2)
    (hst : tagFindAtom atoms stcoPath = some st)
    (hm : tagFindAtom atoms ["moov"] = some m) :
    ∃ st2 m2, tagFindAtom atoms2 stcoPath = some st2 ∧
      effData file st2 = stcoDataUpdate atom.size (effData file st) ∧
      tagFindAtom atoms2 ["moov"] = some m2 ∧ m2.size = m.size + atom.size := by
  rw [stcoPath] at hst
  have hname : st.name = "stco" := by
    have hst' := hst
    rw [tagFindAtom] at hst'
    have := findInList_name atoms "moov" _ st hst'
    rw [this]
    rfl
  rw [barFlyMp4TagAddAtom] at hstep
  simp only at hstep
  match hin : addChildIn atom atoms "moov" qrest with
  | none => rw [hin] at hstep; cases hstep
  | some atoms1 =>
    rw [hin] at hstep
    simp only [if_pos rfl] at hstep
    -- phase A: the attach leaves the stco payload alone and bumps moov
    rw [tagFindAtom] at hst
    rw [tagFindAtom] at hm
    obtain ⟨st1, hfind1, hn1, hd1, hds1, hoff1⟩ :=
      addChildIn_find atom atoms "moov" qrest atoms1 "moov" _ st hin hst
    obtain ⟨m1, hfindm1, hsizem1⟩ := addChildIn_findHead atom atoms "moov" qrest atoms1 m hin hm
    have heff1 : effData file st1 = effData file st := effData_congr file st1 st hd1 hds1 hoff1
    have hname1 : st1.name = "stco" := by rw [hn1, hname]
    -- phase B: the offsets update rewrites the stco payload in place
    have hfn : ∀ x, (stcoAtomUpdate file atom.size x).name = x.name :=
      fun x => (stcoAtomUpdate_fields file atom.size x).1
    have hfs : ∀ x, (stcoAtomUpdate file atom.size x).size = x.size :=
      fun x => (stcoAtomUpdate_fields file atom.size x).2
    obtain ⟨atomsB, hmap, hfind2⟩ :=
      mapAtList_of_find (stcoAtomUpdate file atom.size) hfn atoms1 "moov" _ st1 hfind1
    have hupd : barFlyMp4TagUpdateOffsets file atoms1 atom.size = atomsB := by
      rw [barFlyMp4TagUpdateOffsets, stcoPath, tagMapAt, hmap]
    rw [hupd] at hstep
    cases hstep
    obtain ⟨m2, hfindm2, hsizem2⟩ :=
      mapAtList_findHead (stcoAtomUpdate file atom.size) hfn hfs atoms1 "moov" _ atoms2 "moov" m1
        hmap hfindm1
    refine ⟨stcoAtomUpdate file atom.size st1, m2, ?_, ?_, ?_, ?_⟩
    · rw [stcoPath, tagFindAtom]; exact hfind2
    · rw [effData_stcoAtomUpdate file atom.size st1 hname1, heff1]
    · rw [tagFindAtom]; exact hfindm2
    · rw [hsizem2, hsizem1]

theorem runAddSteps_stco (file : List Nat) :
    ∀ (steps : List (List String × Mp4Atom)) (atoms atoms2 : List Mp4Atom)
      (st m : Mp4Atom),
    (∀ s ∈ steps, ∃ qrest, s.1 = "moov" :: qrest) →
    runAddSteps file atoms steps = some atoms2 →
    tagFindAtom atoms stcoPath = some st →
    tagFindAtom atoms ["moov"] = some m →
    ∃ st2 m2, tagFindAtom atoms2 stcoPath = some st2 ∧
      effData file st2 = applyStcoUpdates (steps.map (fun s => s.2.size)) (effData file st) ∧
      tagFindAtom atoms2 ["moov"] = some m2 ∧ m2.size = m.size + sumStepSizes steps
  | [], atoms, atoms2, st, m, _, hrun, hst, hm => by
    rw [runAddSteps] at hrun
    cases hrun
    exact ⟨st, m, hst, rfl, hm, by simp [sumStepSizes]⟩
  | (q, a) :: rest, atoms, atoms2, st, m, hq, hrun, hst, hm => by
    obtain ⟨qrest, hq1⟩ := hq (q, a) (by simp)
    simp only at hq1
    subst hq1
    rw [runAddSteps] at hrun
    match hstep : barFlyMp4TagAddAtom file atoms ("moov" :: qrest) a true with
    | none => rw [hstep] at hrun; cases hrun
    | some atoms1 =>
      rw [hstep] at hrun
      obtain ⟨st1, m1, hst1, heff1, hm1, hsize1⟩ :=
        tagAddAtom_stcoStep file atoms qrest a atoms1 st m hstep hst hm
      obtain ⟨st2, m2, hst2, heff2, hm2, hsize2⟩ :=
        runAddSteps_stco file rest atoms1 atoms2 st1 m1
          (fun s hs => hq s (by simp [hs])) hrun hst1 hm1
      refine ⟨st2, m2, hst2, ?_, hm2, ?_⟩
      · rw [heff2, heff1]
        rfl
      · rw [hsize2, hsize1, sumStepSizes]
        omega

theorem sumStepSizes_eq_map_sum :
    ∀ steps : List (List String × Mp4Atom),
    (steps.map (fun s => s.2.size)).sum = sumStepSizes steps
  | [] => rfl
  | (q, a) :: rest => by
    rw [List.map_cons, List.sum_cons, sumStepSizes, sumStepSizes_eq_map_sum rest]

/-- **C1.**  For an MP4 tag whose `moov` tree contains a well-formed `stco`
chunk-offset table: after any sequence of `_BarFlyMp4TagAddAtom` calls with
`update_offsets = true` whose parent paths lie under `moov` (exactly the
calls the tagger performs after parsing), every pre-existing 32-bit `stco`
entry `e` in the table that the render step writes out verbatim equals
`(e + Δ) mod 2^32`, where `Δ` is the sum, over every attached atom, of that
atom's size at the moment it was attached — and `Δ` is exactly the net byte
growth of the `moov` atom. -/
theorem c1_stco_invariant (file : List Nat) (atoms atoms2 : List Mp4Atom)
    (steps : List (List String × Mp4Atom))
    (hpaths : ∀ s ∈ steps, ∃ qrest, s.1 = "moov" :: qrest)
    (hrun : runAddSteps file atoms steps = some atoms2)
    (st m : Mp4Atom)
    (hst : tagFindAtom atoms stcoPath = some st)
    (hm : tagFindAtom atoms ["moov"] = some m)
    (hwf : stcoWf (effData file st)) :
    ∃ st2 m2, tagFindAtom atoms2 stcoPath = some st2 ∧
      tagFindAtom atoms2 ["moov"] = some m2 ∧
      m2.size = m.size + sumStepSizes steps ∧
      stcoCount (effData file st2) = stcoCount (effData file st) ∧
      ∀ i, i < stcoCount (effData file st) →
        stcoEntry (effData file st2) i
          = (stcoEntry (effData file st) i + sumStepSizes steps) % 2 ^ 32 := by
  obtain ⟨st2, m2, hst2, heff2, hm2, hsize2⟩ :=
    runAddSteps_stco file steps atoms atoms2 st m hpaths hrun hst hm
  obtain ⟨_, hcnt, hent⟩ :=
    applyStcoUpdates_spec (steps.map (fun s => s.2.size)) (effData file st) hwf
  refine ⟨st2, m2, hst2, hm2, hsize2, ?_, ?_⟩
  · rw [heff2, hcnt]
  · intro i hi
    rw [heff2, hent i hi, sumStepSizes_eq_map_sum]

/-- Witness for C1 at a concrete tag: after adding an 8-byte `udta` under
`moov`, the `stco` entries 500 and 900 become 508 and 908 and `moov` grows
from 64 to 72. -/
theorem c1_stco_invariant_witness :
    ∃ st2 m2,
      tagFindAtom ((runAddSteps [] [c1Moov] c1Steps).getD []) stcoPath = some st2 ∧
      tagFindAtom ((runAddSteps [] [c1Moov] c1Steps).getD []) ["moov"] = some m2 ∧
      m2.size = c1Moov.size + sumStepSizes c1Steps ∧
      stcoCount (effData [] st2) = stcoCount (effData [] c1Stco) ∧
      ∀ i, i < stcoCount (effData [] c1Stco) →
        stcoEntry (effData [] st2) i
          = (stcoEntry (effData [] c1Stco) i + sumStepSizes c1Steps) % 2 ^ 32 :=
  c1_stco_invariant [] [c1Moov] ((runAddSteps [] [c1Moov] c1Steps).getD []) c1Steps
    (by intro s hs; rw [c1Steps, List.mem_singleton] at hs; subst hs; exact ⟨[], rfl⟩)
    (by rfl) c1Stco c1Moov (by rfl) (by rfl) (by refine ⟨?_, ?_, ?_⟩ <;> decide)

/-- Counterexample to C8 as stated: when the attachment of a freshly
created `udta` under `moov` fails (here: against a tag whose `moov` lookup
fails, the same ignored error site), the add does **not** return success —
the subsequent, checked attachment of `meta` under `moov.udta` fails and
the whole add returns -1. -/
theorem c8_counterexample :
    (barFlyMp4TagAddMetaAtom [] [Mp4Atom.node "moov" 8 0 none 32 []] mp4ArtistAtomName
        mp4ArtistClass [65] false true true true true true).fst = -1 ∧
    ((-1 : Int) = 0 → False) :=
  ⟨by rfl, by decide⟩

/-- **C8 (amended).**  When `moov.udta.meta.ilst` already exists and the
metadata atom is built successfully but its final attachment under
`moov.udta.meta.ilst` fails, the add still returns success (0) — that
attachment status is ignored — and the tag is left unchanged.  (A failed
attachment of a freshly created `udta` under `moov`, by contrast, makes the
subsequent checked `meta` attachment fail, and the add returns -1.) -/
theorem c8_ignored_attach (file : List Nat) (atoms : List Mp4Atom) (nm : String)
    (cls dataBytes : List Nat) (aUdta aMeta aHdlr aIlst : Bool) (ilst : Mp4Atom)
    (hilst : tagFindAtom atoms ["moov", "udta", "meta", "ilst"] = some ilst) :
    (barFlyMp4TagAddMetaAtom file atoms nm cls dataBytes aUdta aMeta aHdlr aIlst true false).fst = 0 ∧
    (barFlyMp4TagAddMetaAtom file atoms nm cls dataBytes aUdta aMeta aHdlr aIlst true false).snd = atoms := by
  rw [barFlyMp4TagAddMetaAtom, hilst]
  simp only [Option.isNone_some, Bool.false_eq_true, if_false]
  rw [addMetaValueAtom]
  simp only [if_pos rfl]
  rw [tagAddAtomAlloc]
  simp only [Bool.false_eq_true, if_false]
  exact ⟨rfl, rfl⟩

/-- Witness for C8 (amended) at a concrete tag with an existing `ilst`:
the final attachment fails, the add returns 0 and the tag is unchanged. -/
theorem c8_ignored_attach_witness :
    (barFlyMp4TagAddMetaAtom [] c8Tag mp4ArtistAtomName mp4ArtistClass [65]
        true true true true true false).fst = 0 ∧
    (barFlyMp4TagAddMetaAtom [] c8Tag mp4ArtistAtomName mp4ArtistClass [65]
        true true true true true false).snd = c8Tag :=
  c8_ignored_attach [] c8Tag mp4ArtistAtomName mp4ArtistClass [65] true true true true
    (Mp4Atom.node "ilst" 8 0 none (-1) []) (by rfl)

/-- Counterexample to C4 as stated: on the template `"%x"` the renderer
keeps the byte after the unknown `%` — the output is `"x"`, not the empty
string the claim (drop `%` *and* the following byte) would produce. -/
theorem c4_unknown_percent_counterexample :
    barFlyPathFill ['A'] ['B'] ['C'] 0 0 0 ['%', 'x'] = ['x'] ∧
    (['x'] = ([] : List Char) → False) :=
  ⟨by simp [barFlyPathFill, startsWithTok], by decide⟩

/-- **C4 (amended).**  When the renderer encounters a `%` that does not
begin one of the six tokens, it drops the `%` alone and continues with the
byte immediately following it, which is processed normally (kept as a
literal, or allowed to begin a token). -/
theorem c4_unknown_percent (pa pal pt : List Char) (year track disc : Nat)
    (rest : List Char)
    (h1 : startsWithTok "artist".data rest = false)
    (h2 : startsWithTok "album".data rest = false)
    (h3 : startsWithTok "title".data rest = false)
    (h4 : startsWithTok "year".data rest = false)
    (h5 : startsWithTok "track".data rest = false)
    (h6 : startsWithTok "disc".data rest = false) :
    barFlyPathFill pa pal pt year track disc ('%' :: rest)
      = barFlyPathFill pa pal pt year track disc rest := by
  rw [barFlyPathFill]
  simp [h1, h2, h3, h4, h5, h6]

/-- Witness for C4 (amended) at the concrete pattern `"%xy"`. -/
theorem c4_unknown_percent_witness :
    barFlyPathFill ['A'] ['B'] ['C'] 1 2 3 ['%', 'x', 'y']
      = barFlyPathFill ['A'] ['B'] ['C'] 1 2 3 ['x', 'y'] :=
  c4_unknown_percent ['A'] ['B'] ['C'] 1 2 3 ['x', 'y']
    (by decide) (by decide) (by decide) (by decide) (by decide) (by decide)

set_option maxRecDepth 4000 in
/-- **C5 (the code bug evaluated).**  `_BarFlyNameTranslate` never
truncates: on a 256-byte input of ordinary characters it produces 256
output bytes, exceeding the 255-byte cap its own documentation (`n`) and
the 256-byte destination buffers (255 content bytes + NUL) impose. -/
theorem c5_name_translate_overflow :
    (barFlyNameTranslate (List.replicate 256 'a') BAR_FLY_NAME_LENGTH false).length = 256 ∧
    255 < 256 := by
  constructor
  · rfl
  · decide

/-- **C6 (the code bug evaluated).**  `BarFlyTag` on a non-completed
recorder does *not* close the write handle: it dispatches to the tag
writer with the stream still open and status TAGGING, violating the
handle-iff-RECORDING invariant (fly.h documents that the stream is closed
before the tag is written; the code never closes it there). -/
theorem c6_tag_keeps_handle_open :
    (barFlyTag c6Fly true).2.status = BarFlyStatus.tagging ∧
    (barFlyTag c6Fly true).2.audioFileOpen = true ∧
    ¬ handleIffRecording (barFlyTag c6Fly true).2 := by
  refine ⟨by rfl, by rfl, ?_⟩
  rw [handleIffRecording]
  decide

theorem rmdirWalk_present :
    ∀ (b : Bool) (dirs : List DirState), (∀ d ∈ dirs, d.present = true) →
    (rmdirWalk b dirs).1 = 0
  | b, [] => fun _ => rfl
  | b, d :: rest => by
    intro h
    rw [rmdirWalk]
    rw [h d (by simp)]
    simp only [Bool.true_eq_false, if_false]
    have hrest : ∀ x ∈ rest, x.present = true := fun x hx => h x (by simp [hx])
    split
    · have := rmdirWalk_present true rest hrest
      cases hw : rmdirWalk true rest with
      | mk st dirs' => rw [hw] at this; simp at this; simp [hw, this]
    · have := rmdirWalk_present false rest hrest
      cases hw : rmdirWalk false rest with
      | mk st dirs' => rw [hw] at this; simp at this; simp [hw, this]

theorem rmdirWalk_removesAll :
    ∀ (dirs : List DirState),
    (∀ d ∈ dirs, d.present = true ∧ d.hasOtherEntries = false) →
    (rmdirWalk true dirs).2 = dirs.map (fun d => { d with present := false })
  | [] => fun _ => rfl
  | d :: rest => by
    intro h
    rw [rmdirWalk]
    rw [(h d (by simp)).1]
    simp only [Bool.true_eq_false, if_false]
    rw [if_pos ⟨(h d (by simp)).2, by trivial⟩]
    have := rmdirWalk_removesAll rest (fun x hx => h x (by simp [hx]))
    cases hw : rmdirWalk true rest with
    | mk st dirs' =>
      rw [hw] at this
      simp at this
      simp [hw, this]

/-- Counterexample to C7 as stated: the second abort-close is *not* a
successful no-op — its `unlink` of the already-removed file fails (the
freed path pointer is still non-NULL, so the delete is attempted again),
and `BarFlyClose` returns -1. -/
theorem c7_counterexample :
    ((barFlyClose (barFlyClose c7Fly c7Fs).2.1 (barFlyClose c7Fly c7Fs).2.2).1 = -1) ∧
    ((-1 : Int) = 0 → False) := by
  constructor
  · rfl
  · decide

/-- **C7 (amended).**  Abort-closing a non-completed recorder twice:
the first call removes the partial file and the now-empty parent
directories and returns 0; the second call changes neither the recorder
nor the file system, but its renewed `unlink` fails on the already-removed
file, so it returns -1 instead of success. -/
theorem c7_abort_close_twice (fly : BarFly) (fs : FlyFs)
    (hc : fly.completed = false) (hp : fly.audioFilePathSet = true)
    (hf : fs.fileExists = true)
    (hd : ∀ d ∈ fs.dirs, d.present = true ∧ d.hasOtherEntries = false) :
    (barFlyClose fly fs).1 = 0 ∧
    (barFlyClose fly fs).2.2.fileExists = false ∧
    (barFlyClose fly fs).2.2.dirs = fs.dirs.map (fun d => { d with present := false }) ∧
    (barFlyClose (barFlyClose fly fs).2.1 (barFlyClose fly fs).2.2).1 = -1 ∧
    (barFlyClose (barFlyClose fly fs).2.1 (barFlyClose fly fs).2.2).2.1
      = (barFlyClose fly fs).2.1 ∧
    (barFlyClose (barFlyClose fly fs).2.1 (barFlyClose fly fs).2.2).2.2
      = (barFlyClose fly fs).2.2 := by
  have hwalk0 := rmdirWalk_present true fs.dirs (fun d hdm => (hd d hdm).1)
  have hwalk2 := rmdirWalk_removesAll fs.dirs hd
  have hdel : barFlyFileDelete true fs
      = (0, { fileExists := false, dirs := fs.dirs.map (fun d => { d with present := false }) }) := by
    rw [barFlyFileDelete]
    simp only [if_pos rfl, hf, if_pos rfl]
    cases hw : rmdirWalk true fs.dirs with
    | mk st dirs' =>
      rw [hw] at hwalk0 hwalk2
      simp at hwalk0 hwalk2
      simp [hwalk0, hwalk2]
  have h1 : barFlyClose fly fs
      = (0, { fly with audioFileOpen := false, status := BarFlyStatus.deleting },
          { fileExists := false, dirs := fs.dirs.map (fun d => { d with present := false }) }) := by
    rw [barFlyClose]
    simp [hc, hp, hdel]
  rw [h1]
  refine ⟨rfl, rfl, rfl, ?_, ?_, ?_⟩ <;>
    · rw [barFlyClose]
      simp [barFlyFileDelete, hc, hp]

/-- Witness for C7 (amended) at the concrete recorder and file system. -/
theorem c7_abort_close_twice_witness :
    (barFlyClose c7Fly c7Fs).1 = 0 ∧
    (barFlyClose c7Fly c7Fs).2.2.fileExists = false ∧
    (barFlyClose c7Fly c7Fs).2.2.dirs = c7Fs.dirs.map (fun d => { d with present := false }) ∧
    (barFlyClose (barFlyClose c7Fly c7Fs).2.1 (barFlyClose c7Fly c7Fs).2.2).1 = -1 ∧
    (barFlyClose (barFlyClose c7Fly c7Fs).2.1 (barFlyClose c7Fly c7Fs).2.2).2.1
      = (barFlyClose c7Fly c7Fs).2.1 ∧
    (barFlyClose (barFlyClose c7Fly c7Fs).2.1 (barFlyClose c7Fly c7Fs).2.2).2.2
      = (barFlyClose c7Fly c7Fs).2.2 :=
  c7_abort_close_twice c7Fly c7Fs (by rfl) (by rfl) (by rfl) (by decide)

/-- **C9.**  `BarFlyOpen` writes the caller's structure exactly on the two
non-fatal outcomes: on a path-construction failure or a fatal open error
the caller's structure is returned unchanged with -1, while on a
successful create (RECORDING) or an existing file (NOT_RECORDING_EXIST)
the structure becomes the freshly scraped state — and in the RECORDING
case the call still returns -1 exactly when some best-effort metadata
scrape missed. -/
theorem c9_open_frame_effect (env : OpenEnv) (song : SongInfo) (template : List Char)
    (useSpaces : Bool) (fly : BarFly) :
    ((barFlyFileGetPath song.artist song.album song.title
        (barFlyOpenScraped env song).year (barFlyOpenScraped env song).track
        (barFlyOpenScraped env song).disc song.audioFormat template useSpaces = none ∨
      env.openOutcome = OpenOutcome.fatal) →
      barFlyOpen env song template useSpaces fly = (-1, fly)) ∧
    (∀ p, barFlyFileGetPath song.artist song.album song.title
        (barFlyOpenScraped env song).year (barFlyOpenScraped env song).track
        (barFlyOpenScraped env song).disc song.audioFormat template useSpaces = some p →
      (env.openOutcome = OpenOutcome.ok →
        barFlyOpen env song template useSpaces fly
          = (barFlyOpenScrapeStatus env,
             { (barFlyOpenScraped env song) with
               audioFilePathSet := true, status := BarFlyStatus.recording,
               audioFileOpen := true })) ∧
      (env.openOutcome = OpenOutcome.alreadyExists →
        barFlyOpen env song template useSpaces fly
          = (barFlyOpenScrapeStatus env,
             { (barFlyOpenScraped env song) with
               audioFilePathSet := true, status := BarFlyStatus.notRecordingExist,
               completed := true }))) := by
  constructor
  · intro h
    rw [barFlyOpen]
    rcases h with h | h
    · rw [h]
    · cases hpath : barFlyFileGetPath song.artist song.album song.title
          (barFlyOpenScraped env song).year (barFlyOpenScraped env song).track
          (barFlyOpenScraped env song).disc song.audioFormat template useSpaces with
      | none => rfl
      | some p => rw [h]
  · intro p hpath
    constructor
    · intro hok
      rw [barFlyOpen, hpath, hok]
    · intro hex
      rw [barFlyOpen, hpath, hex]

/-- Witness for C9: with a scrape miss and a successful create, the call
both modifies the caller's structure (entering RECORDING) and returns -1. -/
theorem c9_open_frame_effect_witness :
    (barFlyFileGetPath c9Song.artist c9Song.album c9Song.title
        (barFlyOpenScraped c9Env c9Song).year (barFlyOpenScraped c9Env c9Song).track
        (barFlyOpenScraped c9Env c9Song).disc c9Song.audioFormat "%artist".data false
        = some "A.mp3".data) ∧
    barFlyOpen c9Env c9Song "%artist".data false c6Fly
      = (-1,
         { (barFlyOpenScraped c9Env c9Song) with
           audioFilePathSet := true, status := BarFlyStatus.recording,
           audioFileOpen := true }) ∧
    ((barFlyOpen c9Env c9Song "%artist".data false c6Fly).2 = c6Fly → False) := by
  have hpath : barFlyFileGetPath c9Song.artist c9Song.album c9Song.title
      (barFlyOpenScraped c9Env c9Song).year (barFlyOpenScraped c9Env c9Song).track
      (barFlyOpenScraped c9Env c9Song).disc c9Song.audioFormat "%artist".data false
      = some "A.mp3".data := by
    simp [barFlyFileGetPath, barFlyOpenScraped, c9Env, c9Song, barFlyNameTranslate,
      barFlyPathFill, startsWithTok]
  have hmain := (c9_open_frame_effect c9Env c9Song "%artist".data false c6Fly).2
    "A.mp3".data hpath
  have hok := hmain.1 (by rfl)
  refine ⟨hpath, ?_, ?_⟩
  · rw [hok]
    rfl
  · rw [hok]
    decide

/-! ## C10: `BarFlyWrite` -/

/-- **C10.**  On a non-completed recorder, `BarFlyWrite` with an empty
buffer returns -1 — `fwrite` of one zero-sized item never reports one item
written — and with a non-empty buffer it returns 0 exactly when all bytes
were written. -/
theorem c10_write_zero_and_full (fly : BarFly) (hc : fly.completed = false) :
    (∀ written, barFlyWrite fly 0 written = -1) ∧
    (∀ dataSize written, 0 < dataSize → written ≤ dataSize →
      (barFlyWrite fly dataSize written = 0 ↔ written = dataSize)) := by
  constructor
  · intro written
    rw [barFlyWrite, hc]
    simp [fwriteSingleItem]
  · intro dataSize written hpos hle
    have hiff : written / dataSize = 1 ↔ written = dataSize := by
      constructor
      · intro hdiv
        by_contra hne
        have hlt : written < dataSize := Nat.lt_of_le_of_ne hle hne
        rw [Nat.div_eq_of_lt hlt] at hdiv
        exact absurd hdiv (by decide)
      · intro h
        subst h
        exact Nat.div_self hpos
    rw [barFlyWrite, hc]
    simp only [if_pos rfl]
    rw [fwriteSingleItem, if_neg (show ¬ dataSize = 0 by omega)]
    by_cases hdiv : written / dataSize = 1
    · rw [if_pos hdiv]
      simp [hiff.mp hdiv]
    · rw [if_neg hdiv]
      constructor
      · intro h
        exact absurd h (by decide)
      · intro h
        exact absurd (hiff.mpr h) hdiv

/-- Witness for C10: a fresh recorder, an empty buffer fails, a full
3-byte write of a 3-byte buffer succeeds, a short write fails. -/
theorem c10_write_zero_and_full_witness :
    barFlyWrite c6Fly 0 0 = -1 ∧ (barFlyWrite c6Fly 3 3 = 0 ↔ (3 : Nat) = 3) :=
  ⟨(c10_write_zero_and_full c6Fly (by rfl)).1 0,
   (c10_write_zero_and_full c6Fly (by rfl)).2 3 3 (by decide) (by decide)⟩

/-- Counterexample to C3 as stated: the unsynchronisation option of the
tag built by the Id3Writer is *not* enabled — the `id3_tag_options` call
passes `values = 0` for a mask containing it, clearing it. -/
theorem c3_counterexample :
    barFlyId3TagOptionsWord &&& ID3_TAG_OPTION_UNSYNCHRONISATION = 0 ∧
    (0 : Nat) ≠ ID3_TAG_OPTION_UNSYNCHRONISATION := by
  constructor
  · decide
  · decide

/-- **C3 (amended).**  Every ID3v2 tag built by the Id3Writer has all four
tag-level options — unsynchronisation, appended-tag, CRC, and
compression — disabled, whatever option word the tag started with. -/
theorem c3_all_four_options_disabled (initialOptions : Nat) :
    id3TagOptions initialOptions barFlyId3OptionsMask 0 &&& ID3_TAG_OPTION_UNSYNCHRONISATION = 0 ∧
    id3TagOptions initialOptions barFlyId3OptionsMask 0 &&& ID3_TAG_OPTION_APPENDEDTAG = 0 ∧
    id3TagOptions initialOptions barFlyId3OptionsMask 0 &&& ID3_TAG_OPTION_CRC = 0 ∧
    id3TagOptions initialOptions barFlyId3OptionsMask 0 &&& ID3_TAG_OPTION_COMPRESSION = 0 := by
  rw [id3TagOptions]
  rw [Nat.zero_and, Nat.or_zero]
  simp only [Nat.and_assoc]
  refine ⟨?_, ?_, ?_, ?_⟩
  · rw [show ((2 ^ 32 - 1) ^^^ barFlyId3OptionsMask) &&& ID3_TAG_OPTION_UNSYNCHRONISATION = 0
      from by decide]
    exact Nat.and_zero _
  · rw [show ((2 ^ 32 - 1) ^^^ barFlyId3OptionsMask) &&& ID3_TAG_OPTION_APPENDEDTAG = 0
      from by decide]
    exact Nat.and_zero _
  · rw [show ((2 ^ 32 - 1) ^^^ barFlyId3OptionsMask) &&& ID3_TAG_OPTION_CRC = 0
      from by decide]
    exact Nat.and_zero _
  · rw [show ((2 ^ 32 - 1) ^^^ barFlyId3OptionsMask) &&& ID3_TAG_OPTION_COMPRESSION = 0
      from by decide]
    exact Nat.and_zero _

/-- Witness for C3 (amended) at the libid3tag default option word. -/
theorem c3_all_four_options_disabled_witness :
    barFlyId3TagOptionsWord &&& ID3_TAG_OPTION_APPENDEDTAG = 0 ∧
    barFlyId3TagOptionsWord &&& ID3_TAG_OPTION_CRC = 0 ∧
    barFlyId3TagOptionsWord &&& ID3_TAG_OPTION_COMPRESSION = 0 :=
  ⟨(c3_all_four_options_disabled id3TagNewOptions).2.1,
   (c3_all_four_options_disabled id3TagNewOptions).2.2.1,
   (c3_all_four_options_disabled id3TagNewOptions).2.2.2⟩

end Pianobarfly
